import Mathlib

/-!
Verification of `src/setup-mcp-servers.mjs`: the configuration merge and the
provisioning steps, as a shallow embedding.

* JavaScript values that JSON can denote are the type `Val`.  Numbers are
  modelled by integers and strings by Lean strings.  An object carries its
  own enumerable properties in enumeration order together with its prototype
  link, because `deepMerge` reads `result[key]` (which follows the prototype
  chain) and writes `result[key] = ...` (which runs the inherited
  `__proto__` setter when the key is `__proto__` and is not an own property).
* An exception is a value of `JsError`; a function that can throw returns
  `Except JsError _`.
* The outside world (files, subprocesses, the network, the clock, the
  JSON codec of the runtime) is an explicit `Env` of oracles and a `World`
  that is passed from step to step and records every effect in a trace.
-/

set_option autoImplicit false

namespace McpSetup

/-! ## Values -/

/-- JavaScript values reachable from `JSON.parse` output and object literals.
In `obj proto props`, `props` lists the own enumerable properties in
enumeration order and `proto` is the prototype link: `none` stands for the
built-in `Object.prototype`, `some p` for a prototype installed through the
`__proto__` setter. -/
inductive Val where
  | null
  | bool (b : Bool)
  | num (n : Int)
  | str (s : String)
  | arr (items : List Val)
  | obj (proto : Option Val) (props : List (String × Val))

/-- Own enumerable properties of an object, in enumeration order. -/
abbrev Props := List (String × Val)

/-- Exceptions: a `TypeError` raised by the runtime, or `new Error(message)`
raised by the script or by a rejected promise. -/
inductive JsError where
  | typeError
  | error (message : String)

/-- An object literal or parsed JSON object: prototype `Object.prototype`. -/
def Val.object (props : Props) : Val := .obj none props

/-- JavaScript truthiness (`if (v)`, `v && ...`). -/
def Val.truthy : Val → Bool
  | .null => false
  | .bool b => b
  | .num n => n != 0
  | .str s => s != ""
  | .arr _ => true
  | .obj _ _ => true

/-- The test `typeof v === "object"`: true of objects, arrays and `null`. -/
def Val.typeofObject : Val → Bool
  | .null => true
  | .arr _ => true
  | .obj _ _ => true
  | _ => false

/-- The test `Array.isArray(v)`. -/
def Val.isArray : Val → Bool
  | .arr _ => true
  | _ => false

/-- Elements of an array (empty for every other value). -/
def Val.items : Val → List Val
  | .arr xs => xs
  | _ => []

/-- Own property lookup on an object; `none` is `undefined`. -/
def Val.own : Val → String → Option Val
  | .obj _ props, k => props.lookup k
  | _, _ => none

/-- A non-array mapping. -/
def Val.isMapping : Val → Bool
  | .obj _ _ => true
  | _ => false

/-- Numeric value of a string of decimal digits. -/
def digitsValue (cs : List Char) : Nat :=
  cs.foldl (fun acc c => 10 * acc + (c.toNat - 48)) 0

/-- Array-index property names: canonical decimal numerals below `2^32 - 1`.
JavaScript enumerates these before all other property names, in ascending
numeric order. -/
def arrayIndex? (k : String) : Option Nat :=
  let cs := k.toList
  if !cs.isEmpty && cs.all Char.isDigit && (cs.head? != some '0' || cs.length == 1)
      && decide (digitsValue cs < 4294967295) then
    some (digitsValue cs)
  else none

mutual
/-- Property read `v[k]` on a value, following the prototype chain.  `none`
stands for `undefined` and for the built-in methods of `Object.prototype`
and `Array.prototype`, which are functions: the script treats a function
exactly like `undefined` (falsy or not of type `"object"`, not an array).
Primitive values have none of the property names the script reads. -/
def Val.get (v : Val) (k : String) : Option Val :=
  match v with
  | .obj proto props =>
    match props.lookup k with
    | some x => some x
    | none => Val.getFrom proto k
  | .arr xs =>
    if k == "length" then some (.num xs.length)
    else
      match arrayIndex? k with
      | some i => xs[i]?
      | none => none
  | _ => none
termination_by structural v
/-- Property read through a prototype link. -/
def Val.getFrom (proto : Option Val) (k : String) : Option Val :=
  match proto with
  | none => none
  | some p => Val.get p k
termination_by structural proto
end

/-- What the inherited `__proto__` getter returns for an object whose
prototype is `Object.prototype`: a truthy non-array object without
enumerable own properties. -/
def objectPrototype : Val := .obj none []

/-- The read `result[key]` on the object under construction. -/
def readKey (proto : Option Val) (props : Props) (k : String) : Option Val :=
  match props.lookup k with
  | some x => some x
  | none =>
    if k == "__proto__" then some (proto.getD objectPrototype)
    else Val.getFrom proto k

/-- Overwrite the value of the own property `k`, keeping its position. -/
def replaceOwn (props : Props) (k : String) (v : Val) : Props :=
  match props with
  | [] => []
  | (k', x) :: rest =>
    if k' == k then (k', v) :: rest else (k', x) :: replaceOwn rest k v

/-- Insert a new array-index property `k` (numeric value `n`) at its place
among the array-index properties. -/
def insertIndexed (props : Props) (n : Nat) (k : String) (v : Val) : Props :=
  match props with
  | [] => [(k, v)]
  | (k', x) :: rest =>
    match arrayIndex? k' with
    | some m =>
      if m < n then (k', x) :: insertIndexed rest n k v else (k, v) :: (k', x) :: rest
    | none => (k, v) :: (k', x) :: rest

/-- Create a new own property: array indices go to their numeric place,
every other name goes last. -/
def defineOwn (props : Props) (k : String) (v : Val) : Props :=
  match arrayIndex? k with
  | some n => insertIndexed props n k v
  | none => props ++ [(k, v)]

/-- The write `result[key] = v` on the object under construction.  An own
property is overwritten.  Otherwise the key `__proto__` reaches the
inherited setter, which installs `v` as prototype when `v` is an object,
an array or `null` and ignores every other value; any other key becomes a
new own property. -/
def assign (proto : Option Val) (props : Props) (k : String) (v : Val) :
    Option Val × Props :=
  if (props.lookup k).isSome then (proto, replaceOwn props k v)
  else if k == "__proto__" then
    (if v.typeofObject then (some v, props) else (proto, props))
  else (proto, defineOwn props k v)

/-- Index-named properties `start, start+1, ...` for the elements `xs`. -/
def indexed (xs : List Val) (start : Nat) : Props :=
  match xs with
  | [] => []
  | x :: rest => (toString start, x) :: indexed rest (start + 1)

/-- One-character strings of a string, one per character of the Lean string
(the source goes by UTF-16 code unit, which is the same for text in the
Basic Multilingual Plane). -/
def charVals (s : String) : List Val :=
  s.toList.map (fun c => Val.str (String.singleton c))

/-- The object spread `{ ...target }`: the own enumerable properties of an
object, the elements of an array or the characters of a string under their
indices, and nothing for `null`, booleans and numbers. -/
def spread : Val → Props
  | .obj _ props => props
  | .arr xs => indexed xs 0
  | .str s => indexed (charVals s) 0
  | _ => []

/-- Strict equality `a === b`, where `none` is `undefined`.  Two objects or
arrays are equal only when they are the same object; the documents handled
by the script are trees without sharing (`JSON.parse` output, an object
literal), so two operands from different places are never the same
object. -/
def strictEquals : Option Val → Option Val → Bool
  | none, none => true
  | some .null, some .null => true
  | some (.bool a), some (.bool b) => a == b
  | some (.num a), some (.num b) => a == b
  | some (.str a), some (.str b) => a == b
  | _, _ => false

/-! ## deepMerge -/

/-- The member read `v.id`: a `TypeError` on `null`, else the property
value, where `none` is `undefined`. -/
def readId (v : Val) : Except JsError (Option Val) :=
  match v with
  | .null => .error .typeError
  | _ => .ok (v.get "id")

/-- The `findIndex` callback
`(existingItem) => existingItem.id && existingItem.id === item.id`;
`item.id` is only read when `existingItem.id` is truthy. -/
def idMatches (existingItem item : Val) : Except JsError Bool :=
  match readId existingItem with
  | .error e => .error e
  | .ok none => .ok false
  | .ok (some existingId) =>
    if existingId.truthy then
      match readId item with
      | .error e => .error e
      | .ok itemId => .ok (strictEquals (some existingId) itemId)
    else .ok false

/-- The call `mergedArray.findIndex(...)`: index of the first element the
callback accepts; `none` is the result `-1`. -/
def findIndex (item : Val) : List Val → Except JsError (Option Nat)
  | [] => .ok none
  | existingItem :: rest =>
    match idMatches existingItem item with
    | .error e => .error e
    | .ok true => .ok (some 0)
    | .ok false =>
      match findIndex item rest with
      | .error e => .error e
      | .ok none => .ok none
      | .ok (some i) => .ok (some (i + 1))

/-- The loop `for (const item of source[key])` over the array copy
`mergedArray`: replace at the found index, else push. -/
def mergeArrays (mergedArray : List Val) : List Val → Except JsError (List Val)
  | [] => .ok mergedArray
  | item :: rest =>
    match findIndex item mergedArray with
    | .error e => .error e
    | .ok (some existingIndex) => mergeArrays (mergedArray.set existingIndex item) rest
    | .ok none => mergeArrays (mergedArray ++ [item]) rest

mutual
/-- The function `deepMerge(target, source)`.  `Object.keys(source)` raises a
`TypeError` for `null`, is empty for booleans and numbers, and lists the
indices of an array or string. -/
def deepMerge (target source : Val) : Except JsError Val :=
  match source with
  | .null => .error .typeError
  | .obj _ sprops => mergeProps sprops none (spread target)
  | .arr xs => mergeElems xs 0 none (spread target)
  | .str s =>
    let st := (indexed (charVals s) 0).foldl
      (fun st kv => assign st.1 st.2 kv.1 kv.2) (none, spread target)
    .ok (.obj st.1 st.2)
  | _ => .ok (.obj none (spread target))
termination_by structural source
/-- The loop `for (const key of Object.keys(source))` over the remaining
entries of an object `source`; `proto` and `props` are the current state of
`result`. -/
def mergeProps (sprops : Props) (proto : Option Val) (props : Props) :
    Except JsError Val :=
  match sprops with
  | [] => .ok (.obj proto props)
  | (key, sv) :: rest =>
    let newValue : Except JsError Val :=
      match readKey proto props key with
      | some t =>
        if t.truthy && t.typeofObject && !t.isArray && sv.typeofObject && !sv.isArray then
          deepMerge t sv
        else if t.isArray && sv.isArray then
          match mergeArrays t.items sv.items with
          | .error e => .error e
          | .ok mergedArray => .ok (.arr mergedArray)
        else .ok sv
      | none => .ok sv
    match newValue with
    | .error e => .error e
    | .ok v => mergeProps rest (assign proto props key v).1 (assign proto props key v).2
termination_by structural sprops
/-- The same loop over the remaining elements of an array `source`, whose
keys are the indices `i, i+1, ...`. -/
def mergeElems (xs : List Val) (i : Nat) (proto : Option Val) (props : Props) :
    Except JsError Val :=
  match xs with
  | [] => .ok (.obj proto props)
  | sv :: rest =>
    let newValue : Except JsError Val :=
      match readKey proto props (toString i) with
      | some t =>
        if t.truthy && t.typeofObject && !t.isArray && sv.typeofObject && !sv.isArray then
          deepMerge t sv
        else if t.isArray && sv.isArray then
          match mergeArrays t.items sv.items with
          | .error e => .error e
          | .ok mergedArray => .ok (.arr mergedArray)
        else .ok sv
      | none => .ok sv
    match newValue with
    | .error e => .error e
    | .ok v =>
      mergeElems rest (i + 1) (assign proto props (toString i) v).1
        (assign proto props (toString i) v).2
termination_by structural xs
end

/-- The value the loop body of `deepMerge` stores under a key whose current
value in `result` is `rv` and whose value in `source` is `sv`. -/
def storedValue (rv : Option Val) (sv : Val) : Except JsError Val :=
  match rv with
  | some t =>
    if t.truthy && t.typeofObject && !t.isArray && sv.typeofObject && !sv.isArray then
      deepMerge t sv
    else if t.isArray && sv.isArray then
      match mergeArrays t.items sv.items with
      | .error e => .error e
      | .ok mergedArray => .ok (.arr mergedArray)
    else .ok sv
  | none => .ok sv

mutual
/-- The value contains no `null`, at any depth. -/
def Val.nullFree (v : Val) : Bool :=
  match v with
  | .null => false
  | .arr xs => nullFreeList xs
  | .obj proto props => nullFreeOpt proto && nullFreeProps props
  | _ => true
termination_by structural v
/-- No element contains `null`. -/
def nullFreeList (xs : List Val) : Bool :=
  match xs with
  | [] => true
  | x :: rest => Val.nullFree x && nullFreeList rest
termination_by structural xs
/-- The prototype link, when set, contains no `null`. -/
def nullFreeOpt (proto : Option Val) : Bool :=
  match proto with
  | none => true
  | some p => Val.nullFree p
termination_by structural proto
/-- No property value contains `null`. -/
def nullFreeProps (props : List (String × Val)) : Bool :=
  match props with
  | [] => true
  | (_, x) :: rest => Val.nullFree x && nullFreeProps rest
termination_by structural props
end

/-- The comparison `x && x === y` of two `id` reads, `none` being
`undefined`. -/
def idsMatch (x y : Option Val) : Bool :=
  match x with
  | some v => v.truthy && strictEquals (some v) y
  | none => false

/-- Two elements have the same identifier: the `id` of `a` is truthy and
strictly equal to the `id` of `b`. -/
def sameId (a b : Val) : Bool := idsMatch (a.get "id") (b.get "id")

/-- Put `item` in the place of the first element that satisfies `p`. -/
def replaceFirst (p : Val → Bool) (item : Val) : List Val → List Val
  | [] => []
  | x :: rest => if p x then item :: rest else x :: replaceFirst p item rest

/-- Merge by identifier in the words of the specification: each incoming
element, in order, replaces in place the element that has the same
identifier, and is appended at the end when no element has it. -/
def specMergeById (existing incoming : List Val) : List Val :=
  incoming.foldl
    (fun acc item =>
      if acc.any (fun x => sameId x item) then replaceFirst (fun x => sameId x item) item acc
      else acc ++ [item])
    existing

/-- The identifier denoted by an `id` read: a truthy string, number or
boolean.  An `id` that is an object or an array is compared by reference in
the source and is no identifier here. -/
def identOf : Option Val → Option Val
  | some (.str s) => if s != "" then some (.str s) else none
  | some (.num n) => if n != 0 then some (.num n) else none
  | some (.bool true) => some (.bool true)
  | _ => none

/-- The identifier of an element, when it has one. -/
def identifier? (v : Val) : Option Val := identOf (v.get "id")

/-- The identifiers present in a sequence, in order. -/
def identifiers (xs : List Val) : List Val := xs.filterMap identifier?

/-! ## Constants and buildMcpConfig -/

/-- The constant `NEO4J_DOCKER`. -/
structure Neo4jDocker where
  containerName : String
  image : String
  httpPort : Nat
  boltPort : Nat
  username : String
  password : String
  plugins : String

/-- Neo4j Docker configuration. -/
def NEO4J_DOCKER : Neo4jDocker where
  containerName := "neo4j-mcp-server"
  image := "neo4j:community"
  httpPort := 7474
  boltPort := 7687
  username := "neo4j"
  password := "neo4j-mcp-local"
  plugins := "[\"apoc\"]"

/-- The expression `value || fallback` on an optional string: `undefined`
and the empty string are falsy. -/
def orDefault (value : Option String) (fallback : String) : String :=
  match value with
  | some s => if s == "" then fallback else s
  | none => fallback

/-- The function `buildMcpConfig(neo4jBinaryPath)`. -/
def buildMcpConfig (neo4jBinaryPath : Option String) : Val :=
  let neo4jCommand := orDefault neo4jBinaryPath "neo4j-mcp"
  .object [
    ("inputs", .arr [
      .object [
        ("id", .str "ado_org"),
        ("type", .str "promptString"),
        ("description", .str "Azure DevOps organization name (e.g. \x27myorg\x27)")]]),
    ("servers", .object [
      ("azure-devops", .object [
        ("type", .str "stdio"),
        ("command", .str "npx"),
        ("args", .arr [.str "-y", .str "@azure-devops/mcp@latest", .str "$\x7binput:ado_org\x7d"])]),
      ("sequential-thinking", .object [
        ("type", .str "stdio"),
        ("command", .str "npx"),
        ("args", .arr [.str "-y", .str "@modelcontextprotocol/server-sequential-thinking"])]),
      ("microsoft-learn", .object [
        ("type", .str "http"),
        ("url", .str "https://learn.microsoft.com/api/mcp")]),
      ("memory", .object [
        ("type", .str "stdio"),
        ("command", .str "npx"),
        ("args", .arr [.str "-y", .str "@modelcontextprotocol/server-memory@latest"])]),
      ("mongodb", .object [
        ("type", .str "stdio"),
        ("command", .str "npx"),
        ("args", .arr [
          .str "-y",
          .str "mongodb-mcp-server@latest",
          .str "--connectionString",
          .str "$\x7benv:MDB_MCP_CONNECTION_STRING\x7d"])]),
      ("mssql", .object [
        ("type", .str "stdio"),
        ("command", .str "npx"),
        ("args", .arr [
          .str "-y",
          .str "mssql-mcp-server@latest",
          .str "$\x7benv:MSSQL_MCP_CONNECTION_STRING\x7d"]),
        ("env", .object [
          ("MSSQL_CONNECTION_STRING", .str "$\x7benv:MSSQL_MCP_CONNECTION_STRING\x7d")])]),
      ("neo4j", .object [
        ("type", .str "stdio"),
        ("command", .str neo4jCommand),
        ("env", .object [
          ("NEO4J_URI", .str ("bolt://localhost:" ++ toString NEO4J_DOCKER.boltPort)),
          ("NEO4J_USERNAME", .str NEO4J_DOCKER.username),
          ("NEO4J_PASSWORD", .str NEO4J_DOCKER.password)])])])]

/-! ## The outside world -/

/-- The logging helpers: `console.log` called directly, `log`, `logStep`,
`logWarn`, `logError` and `logDry`. -/
inductive LogKind where
  | plain
  | ok
  | step
  | warn
  | error
  | dry

/-- The text a logging helper prints for `message` (`colors` inlined). -/
def LogKind.render (kind : LogKind) (message : String) : String :=
  match kind with
  | .plain => message
  | .ok => "\x1b[32m" ++ "  ✔" ++ "\x1b[0m" ++ " " ++ message
  | .step => "\n" ++ "\x1b[36m" ++ "\x1b[1m" ++ "▸ " ++ message ++ "\x1b[0m"
  | .warn => "\x1b[33m" ++ "  ⚠" ++ "\x1b[0m" ++ " " ++ message
  | .error => "\x1b[31m" ++ "  ✖" ++ "\x1b[0m" ++ " " ++ message
  | .dry => "\x1b[2m" ++ "  [dry-run] " ++ message ++ "\x1b[0m"

/-- What the script does to the outside world, one constructor per kind of
call: console output, `execSync`, the metadata request of `httpsGetJson`,
the transfer of `httpsDownload`, `mkdirSync`, `writeFileSync`, `chmodSync`
and `unlinkSync`. -/
inductive Effect where
  | print (kind : LogKind) (message : String)
  | exec (command : String)
  | httpGet (url : String)
  | download (url : Option Val) (destPath : String)
  | mkdir (path : String)
  | writeFile (path : String) (content : String)
  | chmod (path : String)
  | unlink (path : String)

/-- The environment of one run: process arguments and variables, platform
facts, and the answers of the collaborators the script calls.  `join` is
`path.join`; `execSync` gives the standard output of a command or the
exception it raises; `httpsGetJson` and `httpsDownload` give the value that
resolves the promise or the exception that rejects it (a request that fails
before any response arrives has no listener in the source and ends the
process: such a run is outside this model); `jsonParse` is `JSON.parse`
(`none` when it raises) and
`jsonStringify v` is `JSON.stringify(v, null, 2)`; `dateNow n` is the value
of the `n`-th call of `Date.now()`; `display` is the string conversion of a
template literal and `typeErrorText` the message of a runtime
`TypeError`. -/
structure Env where
  argv : List String
  platform : String
  arch : String
  homedir : String
  tmpdir : String
  getenv : String → Option String
  join : List String → String
  toLowerCase : String → String
  execSync : String → Except JsError String
  httpsGetJson : String → Except JsError Val
  httpsDownload : Option Val → Except JsError String
  dateNow : Nat → Nat
  jsonParse : String → Option Val
  jsonStringify : Val → String
  display : Option Val → String
  typeErrorText : String

/-- The mutable part of the outside world: the content of every regular
file by path, the number of clock reads so far, and the effects performed so
far, oldest first.  File-system calls of the script itself always succeed in
this model, and what a subprocess does to the disk is not tracked. -/
structure World where
  files : String → Option String
  clockReads : Nat
  trace : List Effect

/-- Record an effect. -/
def World.emit (w : World) (e : Effect) : World :=
  { w with trace := w.trace ++ [e] }

/-- The call `existsSync(path)`. -/
def World.existsSync (w : World) (path : String) : Bool := (w.files path).isSome

/-- The call `writeFileSync(path, content)`. -/
def World.writeFileSync (w : World) (path content : String) : World :=
  { w with
    files := fun q => if q == path then some content else w.files q
    trace := w.trace ++ [.writeFile path content] }

/-- The call `unlinkSync(path)`. -/
def World.unlinkSync (w : World) (path : String) : World :=
  { w with
    files := fun q => if q == path then none else w.files q
    trace := w.trace ++ [.unlink path] }

/-- The property `error.message`. -/
def errorMessage (env : Env) : JsError → String
  | .error message => message
  | .typeError => env.typeErrorText

/-- The constant `DRY_RUN`. -/
def DRY_RUN (env : Env) : Bool := env.argv.contains "--dry-run"

/-- The constant `SKIP_NEO4J`. -/
def SKIP_NEO4J (env : Env) : Bool := env.argv.contains "--skip-neo4j"

/-- The constant `SKIP_NEO4J_DOCKER`. -/
def SKIP_NEO4J_DOCKER (env : Env) : Bool := env.argv.contains "--skip-neo4j-docker"

/-- The constant `SKIP_CACHE_WARM`. -/
def SKIP_CACHE_WARM (env : Env) : Bool := env.argv.contains "--skip-cache-warm"

/-- The constant `NPX_PACKAGES`. -/
def NPX_PACKAGES : List String := [
  "@azure-devops/mcp@latest",
  "@modelcontextprotocol/server-sequential-thinking",
  "@modelcontextprotocol/server-memory@latest",
  "mongodb-mcp-server@latest",
  "mssql-mcp-server@latest"]

/-- The constant `NEO4J_GITHUB_API`. -/
def NEO4J_GITHUB_API : String := "https://api.github.com/repos/neo4j/mcp/releases/latest"

/-- The constant `isWindows`. -/
def isWindows (env : Env) : Bool := env.platform == "win32"

/-- The constant `isMac`. -/
def isMac (env : Env) : Bool := env.platform == "darwin"

/-- The helper `log(message)`. -/
def log (message : String) (w : World) : World := w.emit (.print .ok message)

/-- The helper `logStep(message)`. -/
def logStep (message : String) (w : World) : World := w.emit (.print .step message)

/-- The helper `logWarn(message)`. -/
def logWarn (message : String) (w : World) : World := w.emit (.print .warn message)

/-- The helper `logError(message)`. -/
def logError (message : String) (w : World) : World := w.emit (.print .error message)

/-- The helper `logDry(message)`. -/
def logDry (message : String) (w : World) : World := w.emit (.print .dry message)

/-- A direct `console.log(message)`. -/
def consoleLog (message : String) (w : World) : World := w.emit (.print .plain message)

/-! ## Path resolution -/

/-- The function `getVSCodeUserConfigDir(variant)`. -/
def getVSCodeUserConfigDir (env : Env) (variant : String) : String :=
  let home := env.homedir
  if isWindows env then
    let appData := orDefault (env.getenv "APPDATA") (env.join [home, "AppData", "Roaming"])
    env.join [appData, variant, "User"]
  else if isMac env then
    env.join [home, "Library", "Application Support", variant, "User"]
  else
    env.join [home, ".config", variant, "User"]

/-- The function `getNeo4jInstallDir()`. -/
def getNeo4jInstallDir (env : Env) : String :=
  let home := env.homedir
  if isWindows env then
    let localAppData :=
      orDefault (env.getenv "LOCALAPPDATA") (env.join [home, "AppData", "Local"])
    env.join [localAppData, "Programs", "neo4j-mcp"]
  else
    env.join [home, "bin"]

/-- The function `getNeo4jAssetName()`. -/
def getNeo4jAssetName (env : Env) : String :=
  let cpuArch := env.arch
  if isWindows env then
    let archSuffix := if cpuArch == "arm64" then "arm64" else "x86_64"
    "neo4j-mcp_Windows_" ++ archSuffix ++ ".zip"
  else if isMac env then
    let archSuffix := if cpuArch == "arm64" then "arm64" else "x86_64"
    "neo4j-mcp_Darwin_" ++ archSuffix ++ ".tar.gz"
  else
    let archSuffix := if cpuArch == "arm64" then "arm64" else "x86_64"
    "neo4j-mcp_Linux_" ++ archSuffix ++ ".tar.gz"

/-! ## neo4j-mcp binary download -/

/-- The call `releaseInfo.assets.find((assetEntry) => assetEntry.name === assetName)`
on the entries of the asset list: reading `.name` from `null` raises a
`TypeError`. -/
def findAsset (assetName : String) : List Val → Except JsError (Option Val)
  | [] => .ok none
  | assetEntry :: rest =>
    match assetEntry with
    | .null => .error .typeError
    | _ =>
      if strictEquals (assetEntry.get "name") (some (.str assetName)) then .ok (some assetEntry)
      else findAsset assetName rest

/-- The expression `releaseInfo.assets.find(...)`: a `TypeError` unless
`releaseInfo` is not `null` and its `assets` is an array. -/
def selectAsset (releaseInfo : Val) (assetName : String) : Except JsError (Option Val) :=
  match releaseInfo with
  | .null => .error .typeError
  | _ =>
    match releaseInfo.get "assets" with
    | some (.arr entries) => findAsset assetName entries
    | _ => .error .typeError

/-- The function `installNeo4jMcp()`; the result is the binary path or the
exception that rejects the promise. -/
def installNeo4jMcp (env : Env) (w : World) : Except JsError String × World :=
  let w := logStep "Installing neo4j-mcp binary" w
  let installDir := getNeo4jInstallDir env
  let binaryName := if isWindows env then "neo4j-mcp.exe" else "neo4j-mcp"
  let binaryPath := env.join [installDir, binaryName]
  let w :=
    if w.existsSync binaryPath then
      logWarn ("neo4j-mcp already exists at " ++ binaryPath ++ " - overwriting") w
    else w
  if DRY_RUN env then
    (.ok binaryPath, logDry ("Would download neo4j-mcp binary to " ++ binaryPath) w)
  else
    let w := log "Fetching latest release info from GitHub..." w
    let w := w.emit (.httpGet NEO4J_GITHUB_API)
    match env.httpsGetJson NEO4J_GITHUB_API with
    | .error e => (.error e, w)
    | .ok releaseInfo =>
      let assetName := getNeo4jAssetName env
      match selectAsset releaseInfo assetName with
      | .error e => (.error e, w)
      | .ok none =>
        (.error (.error ("Could not find asset \x27" ++ assetName ++ "\x27 in release "
          ++ env.display (releaseInfo.get "tag_name"))), w)
      | .ok (some asset) =>
        -- here `asset.name === assetName`, so `asset.name` is the string `assetName`
        let w := log ("Downloading " ++ assetName ++ " ("
          ++ env.display (releaseInfo.get "tag_name") ++ ")...") w
        let tempArchivePath := env.join [env.tmpdir, assetName]
        let w := w.emit (.download (asset.get "browser_download_url") tempArchivePath)
        match env.httpsDownload (asset.get "browser_download_url") with
        | .error e => (.error e, w)
        | .ok archive =>
          let w := { w with
            files := fun q => if q == tempArchivePath then some archive else w.files q }
          let w := log ("Downloaded to " ++ tempArchivePath) w
          let w := w.emit (.mkdir installDir)
          let extractCommand :=
            if isWindows env then
              "powershell -NoProfile -Command \"Expand-Archive -Path \x27" ++ tempArchivePath
                ++ "\x27 -DestinationPath \x27" ++ installDir ++ "\x27 -Force\""
            else
              "tar -xzf \"" ++ tempArchivePath ++ "\" -C \"" ++ installDir ++ "\""
          let w := w.emit (.exec extractCommand)
          match env.execSync extractCommand with
          | .error e => (.error e, w)
          | .ok _ =>
            let w := if isWindows env then w else w.emit (.chmod binaryPath)
            let w := w.unlinkSync tempArchivePath
            let w := log ("Installed neo4j-mcp to " ++ binaryPath) w
            let pathDirs :=
              (orDefault (env.getenv "PATH") "").splitOn (if isWindows env then ";" else ":")
            let isInPath :=
              pathDirs.any (fun directory =>
                env.toLowerCase directory == env.toLowerCase installDir)
            let w :=
              if !isInPath then
                let w := logWarn (installDir
                  ++ " is NOT in your PATH. Add it manually or use the full path.") w
                if isWindows env then
                  logWarn ("  PowerShell: [Environment]::SetEnvironmentVariable(\"PATH\", "
                    ++ "$env:PATH + \";" ++ installDir ++ "\", \"User\")") w
                else
                  logWarn ("  Add to ~/.zshrc or ~/.bashrc: export PATH=\"$PATH:"
                    ++ installDir ++ "\"") w
              else w
            (.ok binaryPath, w)

/-! ## Neo4j Docker container -/

/-- White space and line terminators removed by `String.prototype.trim`. -/
def isJsWhiteSpace (c : Char) : Bool :=
  let n := c.toNat
  n == 9 || n == 10 || n == 11 || n == 12 || n == 13 || n == 32 || n == 160
    || n == 5760 || (8192 ≤ n && n ≤ 8202) || n == 8232 || n == 8233 || n == 8239
    || n == 8287 || n == 12288 || n == 65279

/-- The method `String.prototype.trim`. -/
def jsTrim (s : String) : String :=
  String.mk ((s.toList.dropWhile isJsWhiteSpace).reverse.dropWhile isJsWhiteSpace).reverse

/-- The command of the availability check. -/
def dockerInfoCommand : String := "docker info"

/-- The command of the existence check. -/
def dockerInspectCommand : String := "docker inspect " ++ NEO4J_DOCKER.containerName

/-- The command of the running-state check. -/
def dockerInspectRunningCommand : String :=
  "docker inspect --format=\"\x7b\x7b.State.Running\x7d\x7d\" " ++ NEO4J_DOCKER.containerName

/-- The command that starts the existing container. -/
def dockerStartCommand : String := "docker start " ++ NEO4J_DOCKER.containerName

/-- The value of `dockerRunCommand`. -/
def dockerRunCommand (env : Env) : String :=
  " ".intercalate [
    "docker run",
    "--detach",
    "--restart always",
    "--name " ++ NEO4J_DOCKER.containerName,
    "--publish " ++ toString NEO4J_DOCKER.httpPort ++ ":7474",
    "--publish " ++ toString NEO4J_DOCKER.boltPort ++ ":7687",
    "--env NEO4J_AUTH=" ++ NEO4J_DOCKER.username ++ "/" ++ NEO4J_DOCKER.password,
    "--env NEO4J_PLUGINS=" ++
      (if isWindows env then "\"" ++ NEO4J_DOCKER.plugins.replace "\"" "\\\"" ++ "\""
       else "\x27" ++ NEO4J_DOCKER.plugins ++ "\x27"),
    "--volume neo4j-mcp-data:/data",
    "--volume neo4j-mcp-logs:/logs",
    NEO4J_DOCKER.image]

/-- The function `isDockerAvailable()`. -/
def isDockerAvailable (env : Env) (w : World) : Bool × World :=
  let w := w.emit (.exec dockerInfoCommand)
  match env.execSync dockerInfoCommand with
  | .ok _ => (true, w)
  | .error _ => (false, w)

/-- The function `isNeo4jContainerRunning()`. -/
def isNeo4jContainerRunning (env : Env) (w : World) : Bool × World :=
  let w := w.emit (.exec dockerInspectRunningCommand)
  match env.execSync dockerInspectRunningCommand with
  | .ok output => (jsTrim output == "true", w)
  | .error _ => (false, w)

/-- The function `doesNeo4jContainerExist()`. -/
def doesNeo4jContainerExist (env : Env) (w : World) : Bool × World :=
  let w := w.emit (.exec dockerInspectCommand)
  match env.execSync dockerInspectCommand with
  | .ok _ => (true, w)
  | .error _ => (false, w)

/-- The function `startNeo4jDocker()`; the result is its return value or the
exception it raises. -/
def startNeo4jDocker (env : Env) (w : World) : Except JsError Bool × World :=
  let w := logStep "Setting up Neo4j Docker container" w
  let (available, w) := isDockerAvailable env w
  if !available then
    let w := logError "Docker is not available. Please install Docker Desktop first." w
    let w := logWarn "  https://www.docker.com/products/docker-desktop/" w
    (.ok false, w)
  else
    let w := log "Docker is available" w
    let (containerExists, w) := doesNeo4jContainerExist env w
    if containerExists then
      let (running, w) := isNeo4jContainerRunning env w
      if running then
        (.ok true,
          log ("Container \x27" ++ NEO4J_DOCKER.containerName ++ "\x27 is already running") w)
      else if DRY_RUN env then
        (.ok true,
          logDry ("Would start existing container \x27" ++ NEO4J_DOCKER.containerName
            ++ "\x27") w)
      else
        let w := log ("Starting existing container \x27" ++ NEO4J_DOCKER.containerName
          ++ "\x27...") w
        let w := w.emit (.exec dockerStartCommand)
        match env.execSync dockerStartCommand with
        | .error e => (.error e, w)
        | .ok _ => (.ok true, log "Container started" w)
    else if DRY_RUN env then
      let w := logDry ("Would create and start Neo4j container \x27"
        ++ NEO4J_DOCKER.containerName ++ "\x27") w
      let w := logDry ("  Image: " ++ NEO4J_DOCKER.image) w
      let w := logDry ("  Ports: " ++ toString NEO4J_DOCKER.httpPort ++ ":7474, "
        ++ toString NEO4J_DOCKER.boltPort ++ ":7687") w
      let w := logDry "  Restart policy: always" w
      let w := logDry "  APOC plugin: enabled" w
      (.ok true, w)
    else
      let w := log ("Creating container \x27" ++ NEO4J_DOCKER.containerName ++ "\x27...") w
      let w := w.emit (.exec (dockerRunCommand env))
      match env.execSync (dockerRunCommand env) with
      | .error e => (.error e, w)
      | .ok _ =>
        let w := log ("Container \x27" ++ NEO4J_DOCKER.containerName
          ++ "\x27 created and started") w
        let w := log ("  Neo4j Browser: http://localhost:" ++ toString NEO4J_DOCKER.httpPort) w
        let w := log ("  Bolt URI:      bolt://localhost:" ++ toString NEO4J_DOCKER.boltPort) w
        let w := log ("  Credentials:   " ++ NEO4J_DOCKER.username ++ " / "
          ++ NEO4J_DOCKER.password) w
        let w := log "  Restart policy: always (starts with Docker Desktop)" w
        let w := log "  APOC plugin:   enabled" w
        let w := log "  Data volume:   neo4j-mcp-data (persistent)" w
        (.ok true, w)

/-! ## npx cache warming -/

/-- The body of the loop of `warmNpxCache` for one package. -/
def warmPackage (env : Env) (w : World) (packageName : String) : World :=
  if DRY_RUN env then
    logDry ("Would pre-cache: " ++ packageName) w
  else
    let w := log ("Caching " ++ packageName ++ "...") w
    let w := w.emit (.exec ("npx -y " ++ packageName ++ " --help"))
    match env.execSync ("npx -y " ++ packageName ++ " --help") with
    | .ok _ => log ("Cached " ++ packageName) w
    | .error _ => log ("Cached " ++ packageName ++ " (downloaded)") w

/-- The function `warmNpxCache()`. -/
def warmNpxCache (env : Env) (w : World) : World :=
  let w := logStep "Pre-warming npx cache (downloading packages for faster first use)" w
  NPX_PACKAGES.foldl (warmPackage env) w

/-! ## mcp.json generation and merge -/

/-- The `catch` block of `writeMcpJson`: warn, copy the existing content to
the path `mcpJsonPath.backup.<Date.now()>`, report the backup. -/
def backupExisting (env : Env) (mcpJsonPath existingContent : String) (w : World) : World :=
  let w := logWarn ("Could not parse existing " ++ mcpJsonPath
    ++ " – creating backup and overwriting") w
  let backupPath := mcpJsonPath ++ ".backup." ++ toString (env.dateNow w.clockReads)
  let w := { w with clockReads := w.clockReads + 1 }
  let w := w.writeFileSync backupPath existingContent
  log ("Backup saved to " ++ backupPath) w

/-- The function `writeMcpJson(configDir, newConfig)`.  The `try` block holds
the read, `JSON.parse`, `deepMerge` and the report of the merge; an exception
of `JSON.parse` or of `deepMerge` reaches the `catch` block, after which
`finalConfig` is still `newConfig`. -/
def writeMcpJson (env : Env) (configDir : String) (newConfig : Val) (w : World) : World :=
  let mcpJsonPath := env.join [configDir, "mcp.json"]
  if DRY_RUN env then
    logDry ("Would write/merge " ++ mcpJsonPath) w
  else
    let w := w.emit (.mkdir configDir)
    let result : Val × World :=
      match w.files mcpJsonPath with
      | some existingContent =>
        match env.jsonParse existingContent with
        | some existingConfig =>
          match deepMerge existingConfig newConfig with
          | .ok finalConfig =>
            (finalConfig, log ("Merged with existing config at " ++ mcpJsonPath) w)
          | .error _ => (newConfig, backupExisting env mcpJsonPath existingContent w)
        | none => (newConfig, backupExisting env mcpJsonPath existingContent w)
      | none => (newConfig, w)
    let w := result.2.writeFileSync mcpJsonPath (env.jsonStringify result.1)
    log ("Written " ++ mcpJsonPath) w

/-! ## Main -/

/-- The opening lines of `main()`. -/
def banner (env : Env) (w : World) : World :=
  let w := consoleLog ("\n" ++ "\x1b[1m"
    ++ "╔══════════════════════════════════════════════╗" ++ "\x1b[0m") w
  let w := consoleLog ("\x1b[1m"
    ++ "║     MCP Server Setup for VS Code             ║" ++ "\x1b[0m") w
  let w := consoleLog ("\x1b[1m"
    ++ "╚══════════════════════════════════════════════╝" ++ "\x1b[0m" ++ "\n") w
  consoleLog ("  Platform: " ++ env.platform ++ " (" ++ env.arch ++ ")  |  Dry-run: "
    ++ toString (DRY_RUN env) ++ "\n") w

/-- Step 1 of `main()`: pre-warm the npx cache. -/
def stepCacheWarm (env : Env) (w : World) : World :=
  if !SKIP_CACHE_WARM env then warmNpxCache env w
  else logStep "Skipping npx cache warming (--skip-cache-warm)" w

/-- Step 2 of `main()`: start the Neo4j Docker container; the first
component is the final value of `neo4jDockerOk`. -/
def stepDocker (env : Env) (w : World) : Bool × World :=
  if !SKIP_NEO4J_DOCKER env then
    match startNeo4jDocker env w with
    | (.ok started, w) => (started, w)
    | (.error error, w) =>
      let w := logError ("Failed to start Neo4j Docker: " ++ errorMessage env error) w
      let w := logWarn "Continuing without Neo4j Docker. You can start it manually later." w
      (false, w)
  else (false, logStep "Skipping Neo4j Docker container (--skip-neo4j-docker)" w)

/-- Step 3 of `main()`: download the neo4j-mcp binary; the first component
is the final value of `neo4jBinaryPath`, `none` being `undefined`. -/
def stepInstall (env : Env) (w : World) : Option String × World :=
  if !SKIP_NEO4J env then
    match installNeo4jMcp env w with
    | (.ok binaryPath, w) => (some binaryPath, w)
    | (.error error, w) =>
      let w := logError ("Failed to install neo4j-mcp: " ++ errorMessage env error) w
      let w := logWarn "Continuing without neo4j-mcp. You can install it manually later." w
      let w := logWarn "  Releases: https://github.com/neo4j/mcp/releases" w
      (none, w)
  else (none, logStep "Skipping neo4j-mcp download (--skip-neo4j)" w)

/-- The names `Object.keys(v)` of an object. -/
def objectKeys (v : Val) : List String := (spread v).map Prod.fst

/-- Step 4 of `main()`: build the document and report the number of
servers. -/
def stepBuild (neo4jBinaryPath : Option String) (w : World) : World :=
  let w := logStep "Building MCP configuration" w
  let mcpConfig := buildMcpConfig neo4jBinaryPath
  log ("Configured " ++ toString (objectKeys ((mcpConfig.get "servers").getD .null)).length
    ++ " MCP servers") w

/-- The constant `variants` of `main()`. -/
def variants : List String := ["Code", "Code - Insiders"]

/-- Step 5 of `main()`: write `mcp.json` for every variant. -/
def stepWrite (env : Env) (mcpConfig : Val) (w : World) : World :=
  variants.foldl
    (fun w variant =>
      let w := logStep ("Configuring " ++ variant) w
      let configDir := getVSCodeUserConfigDir env variant
      writeMcpJson env configDir mcpConfig w)
    w

/-- The summary printed at the end of `main()`. -/
def summary (env : Env) (neo4jDockerOk : Bool) (neo4jBinaryPath : Option String)
    (w : World) : World :=
  let w := consoleLog ("\n" ++ "\x1b[1m" ++ "\x1b[32m"
    ++ "══════════════════════════════════════════════" ++ "\x1b[0m") w
  let w := consoleLog ("\x1b[1m" ++ "\x1b[32m" ++ "  Setup complete!" ++ "\x1b[0m" ++ "\n") w
  let w := consoleLog "  Configured MCP servers:" w
  let w := consoleLog "    1. azure-devops       (npx, stdio)" w
  let w := consoleLog "    2. sequential-thinking (npx, stdio)" w
  let w := consoleLog "    3. microsoft-learn     (remote HTTP – no install needed)" w
  let w := consoleLog "    4. memory              (npx, stdio)" w
  let w := consoleLog "    5. mongodb             (npx, stdio, --connectionString via env)" w
  let w := consoleLog "    6. mssql               (npx, stdio, connection via env)" w
  let w := consoleLog ("    7. neo4j               (binary"
    ++ (match neo4jBinaryPath with
        | some path => if path != "" then " @ " ++ path else " – skipped/failed"
        | none => " – skipped/failed") ++ ")") w
  let w := consoleLog ("       neo4j-docker        ("
    ++ (if neo4jDockerOk then
          "running → bolt://localhost:" ++ toString NEO4J_DOCKER.boltPort
        else "skipped/failed") ++ ")") w
  let w := consoleLog "\n  Locations:" w
  let w := variants.foldl
    (fun w variant =>
      let configDir := getVSCodeUserConfigDir env variant
      consoleLog ("    " ++ variant ++ ": " ++ env.join [configDir, "mcp.json"]) w)
    w
  let w := consoleLog ("\n" ++ "\x1b[33m" ++ "  Next steps:" ++ "\x1b[0m") w
  let w := consoleLog "    1. Restart VS Code / VS Code Insiders" w
  let w := consoleLog "    2. Open Copilot Chat in Agent Mode" w
  let w := consoleLog "    3. Click \"Select Tools\" and enable MCP servers" w
  let w := consoleLog "    4. On first use, ADO server will prompt for organization name" w
  let w := consoleLog ("    5. Neo4j Browser: http://localhost:" ++ toString NEO4J_DOCKER.httpPort
    ++ " (user: " ++ NEO4J_DOCKER.username ++ ")") w
  consoleLog "" w

/-- The value of `neo4jBinaryPath` that `main()` passes to `buildMcpConfig`
when it starts in the world `w`. -/
def mainBinaryPath (env : Env) (w : World) : Option String :=
  (stepInstall env (stepDocker env (stepCacheWarm env (banner env w))).2).1

/-- The function `main()`.  Every exception of the optional steps is caught
inside, and the file-system calls of `writeMcpJson` succeed in this model,
so the promise never rejects and the handler on the last line of the script
never runs. -/
def main (env : Env) (w : World) : World :=
  let w := banner env w
  let w := stepCacheWarm env w
  let docker := stepDocker env w
  let install := stepInstall env docker.2
  let w := stepBuild install.1 install.2
  let w := stepWrite env (buildMcpConfig install.1) w
  summary env docker.1 install.1 w

/-! ## Vocabulary of the statements -/

/-- The field `field` of the server `server` of a configuration document. -/
def serverField (doc : Val) (server field : String) : Option Val :=
  ((doc.own "servers").bind (fun servers => servers.own server)).bind
    (fun entry => entry.own field)

/-- An effect that changes nothing outside the process: console output, or
one of the three docker queries (availability, existence, running state).
Every file-system write, network request and other subprocess is excluded. -/
def Effect.readOnly : Effect → Bool
  | .print _ _ => true
  | .exec command =>
    command == dockerInfoCommand || command == dockerInspectCommand
      || command == dockerInspectRunningCommand
  | _ => false

/-- A line printed by `logDry`, which starts with `[dry-run]`. -/
def Effect.isDryLog : Effect → Bool
  | .print .dry _ => true
  | _ => false

/-- The commands run through `execSync`, in order. -/
def commandsOf : List Effect → List String
  | [] => []
  | .exec command :: rest => command :: commandsOf rest
  | _ :: rest => commandsOf rest

/-- From `w` to `w'` no file changed and only read-only effects were added;
when `announced` holds, one of them is a `[dry-run]` line. -/
def DryStep (announced : Bool) (w w' : World) : Prop :=
  w'.files = w.files ∧
    ∃ es, w'.trace = w.trace ++ es ∧ (∀ e ∈ es, Effect.readOnly e = true) ∧
      (announced = true → ∃ e ∈ es, Effect.isDryLog e = true)

/-- The operating-system part of the asset filename in the words of the
specification: `Windows` for `win32`, `Darwin` for `darwin`, `Linux` for
every other platform. -/
def specAssetOs (platform : String) : String :=
  if platform = "win32" then "Windows"
  else if platform = "darwin" then "Darwin"
  else "Linux"

/-- The architecture part: `arm64` for `arm64`, `x86_64` for every other
architecture. -/
def specAssetArch (arch : String) : String :=
  if arch = "arm64" then "arm64" else "x86_64"

/-- The extension: `zip` for Windows, `tar.gz` otherwise. -/
def specAssetExt (platform : String) : String :=
  if platform = "win32" then "zip" else "tar.gz"

/-- The asset filename `neo4j-mcp_<OS>_<ARCH>.<EXT>` of the specification. -/
def specAssetName (platform arch : String) : String :=
  "neo4j-mcp_" ++ specAssetOs platform ++ "_" ++ specAssetArch arch ++ "."
    ++ specAssetExt platform

/-- A sample environment: POSIX paths, a reachable Docker daemon with the
container running, and a JSON codec given by `parse`. -/
def sampleEnv (argv : List String) (parse : String → Option Val) : Env where
  argv := argv
  platform := "linux"
  arch := "x64"
  homedir := "/home/dev"
  tmpdir := "/tmp"
  getenv := fun _ => none
  join := fun parts => "/".intercalate parts
  toLowerCase := fun s => s
  execSync := fun command =>
    if command == dockerInspectRunningCommand then .ok "true\n" else .ok ""
  httpsGetJson := fun _ => .error (.error "Failed to parse JSON: Unexpected end of JSON input")
  httpsDownload := fun _ => .error (.error "Download failed with status 404")
  dateNow := fun n => 1700000000000 + n
  jsonParse := parse
  jsonStringify := fun _ => "<json>"
  display := fun _ => ""
  typeErrorText := "TypeError"

/-- A sample world: one file at `path` with `content`, nothing done yet. -/
def sampleWorld (path content : String) : World where
  files := fun q => if q == path then some content else none
  clockReads := 0
  trace := []

/-! ## Theorems -/

theorem mergeProps_cons (key : String) (sv : Val) (rest : Props) (proto : Option Val)
    (props : Props) :
    mergeProps ((key, sv) :: rest) proto props =
      match storedValue (readKey proto props key) sv with
      | .error e => .error e
      | .ok v => mergeProps rest (assign proto props key v).1 (assign proto props key v).2 := by
  rw [mergeProps]
  rfl

theorem lookup_cons_ne (rest : Props) (k k' : String) (v : Val) (h : k' ≠ k) :
    List.lookup k' ((k, v) :: rest) = List.lookup k' rest := by
  simp only [List.lookup, beq_eq_false_iff_ne.mpr h]

theorem lookup_cons_self (rest : Props) (k : String) (v : Val) :
    List.lookup k ((k, v) :: rest) = some v := by
  simp only [List.lookup, beq_self_eq_true]

theorem lookup_replaceOwn_ne (props : Props) (k k' : String) (v : Val) (h : k' ≠ k) :
    (replaceOwn props k v).lookup k' = props.lookup k' := by
  induction props with
  | nil => rfl
  | cons p rest ih =>
    obtain ⟨k0, x⟩ := p
    unfold replaceOwn
    by_cases h0 : k0 = k
    · subst h0
      simp only [beq_self_eq_true, if_true]
      rw [lookup_cons_ne _ _ _ _ h, lookup_cons_ne _ _ _ _ h]
    · simp only [beq_iff_eq, h0, if_false]
      by_cases h1 : k' = k0
      · subst h1
        rw [lookup_cons_self, lookup_cons_self]
      · rw [lookup_cons_ne _ _ _ _ h1, lookup_cons_ne _ _ _ _ h1, ih]

theorem lookup_replaceOwn_self (props : Props) (k : String) (v : Val)
    (h : (props.lookup k).isSome = true) : (replaceOwn props k v).lookup k = some v := by
  induction props with
  | nil => simp [List.lookup] at h
  | cons p rest ih =>
    obtain ⟨k0, x⟩ := p
    unfold replaceOwn
    by_cases h0 : k0 = k
    · subst h0
      simp only [beq_self_eq_true, if_true]
      exact lookup_cons_self _ _ _
    · have h0' : k ≠ k0 := fun e => h0 e.symm
      simp only [beq_iff_eq, h0, if_false]
      rw [lookup_cons_ne _ _ _ _ h0'] at h ⊢
      exact ih h

theorem lookup_insertIndexed_ne (props : Props) (n : Nat) (k k' : String) (v : Val)
    (h : k' ≠ k) : (insertIndexed props n k v).lookup k' = props.lookup k' := by
  induction props with
  | nil =>
    unfold insertIndexed
    exact lookup_cons_ne _ _ _ _ h
  | cons p rest ih =>
    obtain ⟨k0, x⟩ := p
    unfold insertIndexed
    cases arrayIndex? k0 with
    | none => exact lookup_cons_ne _ _ _ _ h
    | some m =>
      by_cases hm : m < n
      · simp only [hm, if_true]
        by_cases h1 : k' = k0
        · subst h1
          rw [lookup_cons_self, lookup_cons_self]
        · rw [lookup_cons_ne _ _ _ _ h1, lookup_cons_ne _ _ _ _ h1, ih]
      · simp only [hm, if_false]
        exact lookup_cons_ne _ _ _ _ h

theorem lookup_append_ne (props : Props) (k k' : String) (v : Val) (h : k' ≠ k) :
    (props ++ [(k, v)]).lookup k' = props.lookup k' := by
  induction props with
  | nil => exact lookup_cons_ne _ _ _ _ h
  | cons p rest ih =>
    obtain ⟨k0, x⟩ := p
    by_cases h1 : k' = k0
    · subst h1
      rw [List.cons_append, lookup_cons_self, lookup_cons_self]
    · rw [List.cons_append, lookup_cons_ne _ _ _ _ h1, lookup_cons_ne _ _ _ _ h1, ih]

theorem lookup_defineOwn_ne (props : Props) (k k' : String) (v : Val) (h : k' ≠ k) :
    (defineOwn props k v).lookup k' = props.lookup k' := by
  unfold defineOwn
  cases arrayIndex? k with
  | none => exact lookup_append_ne props k k' v h
  | some n => exact lookup_insertIndexed_ne props n k k' v h

theorem lookup_assign_ne (proto : Option Val) (props : Props) (k k' : String) (v : Val)
    (h : k' ≠ k) : (assign proto props k v).2.lookup k' = props.lookup k' := by
  unfold assign
  split
  · exact lookup_replaceOwn_ne props k k' v h
  · split
    · split <;> rfl
    · exact lookup_defineOwn_ne props k k' v h

theorem lookup_assign_self (proto : Option Val) (props : Props) (k : String) (v : Val)
    (h : (props.lookup k).isSome = true) : (assign proto props k v).2.lookup k = some v := by
  unfold assign
  rw [if_pos h]
  exact lookup_replaceOwn_self props k v h

/-- Keys that `source` does not mention keep their own value in the result. -/
theorem mergeProps_frame (sprops : Props) :
    ∀ (proto : Option Val) (props : Props) (r : Val) (k : String),
      mergeProps sprops proto props = .ok r → (∀ p ∈ sprops, p.1 ≠ k) →
      r.own k = props.lookup k := by
  induction sprops with
  | nil =>
    intro proto props r k h _
    simp only [mergeProps, Except.ok.injEq] at h
    subst h
    rfl
  | cons p rest ih =>
    intro proto props r k h hk
    obtain ⟨key, sv⟩ := p
    rw [mergeProps_cons] at h
    cases hv : storedValue (readKey proto props key) sv with
    | error e => rw [hv] at h; cases h
    | ok v =>
      rw [hv] at h
      have hne : k ≠ key := fun e => hk (key, sv) (List.mem_cons_self _ _) e.symm
      rw [ih _ _ r k h (fun p hp => hk p (List.mem_cons_of_mem _ hp))]
      exact lookup_assign_ne proto props key k v hne

/-- A key that is an own property of `result` and a key of `source` ends up
bound to the value the loop body computes for it. -/
theorem mergeProps_at (sprops : Props) :
    ∀ (proto : Option Val) (props : Props) (r : Val) (k : String) (sv t : Val),
      mergeProps sprops proto props = .ok r → (sprops.map Prod.fst).Nodup →
      sprops.lookup k = some sv → props.lookup k = some t →
      ∃ v, storedValue (some t) sv = .ok v ∧ r.own k = some v := by
  induction sprops with
  | nil =>
    intro proto props r k sv t _ _ hs _
    simp [List.lookup] at hs
  | cons p rest ih =>
    intro proto props r k sv t h hnd hs ht
    obtain ⟨key, sv0⟩ := p
    rw [mergeProps_cons] at h
    simp only [List.map_cons, List.nodup_cons] at hnd
    cases hv : storedValue (readKey proto props key) sv0 with
    | error e => rw [hv] at h; cases h
    | ok v =>
      rw [hv] at h
      by_cases hk : k = key
      · subst hk
        rw [lookup_cons_self] at hs
        cases hs
        have hread : readKey proto props k = some t := by
          simp [readKey, ht]
        rw [hread] at hv
        refine ⟨v, hv, ?_⟩
        rw [mergeProps_frame rest _ _ r k h]
        · exact lookup_assign_self proto props k v (by simp [ht])
        · intro p hp e
          exact hnd.1 (e ▸ List.mem_map_of_mem Prod.fst hp)
      · have hs' : rest.lookup k = some sv := by
          rw [lookup_cons_ne _ _ _ _ hk] at hs
          exact hs
        refine ih _ _ r k sv t h hnd.2 hs' ?_
        rw [lookup_assign_ne proto props key k v hk]
        exact ht

theorem nullFreeList_iff (xs : List Val) :
    nullFreeList xs = true ↔ ∀ x ∈ xs, Val.nullFree x = true := by
  induction xs with
  | nil => simp [nullFreeList]
  | cons x rest ih => simp [nullFreeList, ih]

theorem nullFreeProps_iff (props : Props) :
    nullFreeProps props = true ↔ ∀ p ∈ props, Val.nullFree p.2 = true := by
  induction props with
  | nil => simp [nullFreeProps]
  | cons p rest ih =>
    obtain ⟨k, x⟩ := p
    simp [nullFreeProps, ih]

theorem lookup_mem (props : Props) (k : String) (v : Val) (h : props.lookup k = some v) :
    (k, v) ∈ props := by
  induction props with
  | nil => simp [List.lookup] at h
  | cons p rest ih =>
    obtain ⟨k0, x⟩ := p
    by_cases h0 : k = k0
    · subst h0
      rw [lookup_cons_self] at h
      cases h
      exact List.mem_cons_self _ _
    · rw [lookup_cons_ne _ _ _ _ h0] at h
      exact List.mem_cons_of_mem _ (ih h)

theorem lookup_none_ne (props : Props) (k : String) (h : props.lookup k = none) :
    ∀ p ∈ props, p.1 ≠ k := by
  induction props with
  | nil => intro p hp; cases hp
  | cons p rest ih =>
    obtain ⟨k0, x⟩ := p
    by_cases h0 : k = k0
    · subst h0
      rw [lookup_cons_self] at h
      cases h
    · rw [lookup_cons_ne _ _ _ _ h0] at h
      intro q hq
      rcases List.mem_cons.mp hq with e | hq'
      · subst e
        exact fun e => h0 e.symm
      · exact ih h q hq'

theorem mem_replaceOwn (props : Props) (k : String) (v : Val) (p : String × Val)
    (h : p ∈ replaceOwn props k v) : p ∈ props ∨ p.2 = v := by
  induction props with
  | nil => simp [replaceOwn] at h
  | cons q rest ih =>
    obtain ⟨k0, x⟩ := q
    unfold replaceOwn at h
    by_cases h0 : k0 = k
    · simp only [h0, beq_self_eq_true, if_true] at h
      rcases List.mem_cons.mp h with e | h'
      · right; rw [e]
      · left; exact List.mem_cons_of_mem _ h'
    · simp only [beq_iff_eq, h0, if_false] at h
      rcases List.mem_cons.mp h with e | h'
      · left; rw [e]; exact List.mem_cons_self _ _
      · rcases ih h' with h1 | h1
        · left; exact List.mem_cons_of_mem _ h1
        · right; exact h1

theorem mem_insertIndexed (props : Props) (n : Nat) (k : String) (v : Val) (p : String × Val)
    (h : p ∈ insertIndexed props n k v) : p ∈ props ∨ p.2 = v := by
  induction props with
  | nil =>
    simp only [insertIndexed, List.mem_singleton] at h
    right; rw [h]
  | cons q rest ih =>
    obtain ⟨k0, x⟩ := q
    unfold insertIndexed at h
    cases hidx : arrayIndex? k0 with
    | none =>
      rw [hidx] at h
      rcases List.mem_cons.mp h with e | h'
      · right; rw [e]
      · left; exact h'
    | some m =>
      rw [hidx] at h
      by_cases hm : m < n
      · simp only [hm, if_true] at h
        rcases List.mem_cons.mp h with e | h'
        · left; rw [e]; exact List.mem_cons_self _ _
        · rcases ih h' with h1 | h1
          · left; exact List.mem_cons_of_mem _ h1
          · right; exact h1
      · simp only [hm, if_false] at h
        rcases List.mem_cons.mp h with e | h'
        · right; rw [e]
        · left; exact h'

theorem mem_defineOwn (props : Props) (k : String) (v : Val) (p : String × Val)
    (h : p ∈ defineOwn props k v) : p ∈ props ∨ p.2 = v := by
  unfold defineOwn at h
  cases hidx : arrayIndex? k with
  | none =>
    rw [hidx] at h
    rcases List.mem_append.mp h with h' | h'
    · left; exact h'
    · right; rw [List.mem_singleton.mp h']
  | some n =>
    rw [hidx] at h
    exact mem_insertIndexed props n k v p h

theorem mem_indexed (xs : List Val) :
    ∀ (start : Nat) (p : String × Val), p ∈ indexed xs start → p.2 ∈ xs := by
  induction xs with
  | nil => intro start p h; simp [indexed] at h
  | cons x rest ih =>
    intro start p h
    unfold indexed at h
    rcases List.mem_cons.mp h with e | h'
    · rw [e]; exact List.mem_cons_self _ _
    · exact List.mem_cons_of_mem _ (ih _ p h')

theorem nullFree_assign (proto : Option Val) (props : Props) (k : String) (v : Val)
    (hp : nullFreeOpt proto = true) (hs : nullFreeProps props = true)
    (hv : Val.nullFree v = true) :
    nullFreeOpt (assign proto props k v).1 = true ∧
      nullFreeProps (assign proto props k v).2 = true := by
  rw [nullFreeProps_iff] at hs
  unfold assign
  split
  · refine ⟨hp, ?_⟩
    rw [nullFreeProps_iff]
    intro p hpm
    rcases mem_replaceOwn props k v p hpm with h | h
    · exact hs p h
    · rw [h]; exact hv
  · split
    · split
      · exact ⟨by simpa [nullFreeOpt] using hv, (nullFreeProps_iff props).mpr hs⟩
      · exact ⟨hp, (nullFreeProps_iff props).mpr hs⟩
    · refine ⟨hp, ?_⟩
      rw [nullFreeProps_iff]
      intro p hpm
      rcases mem_defineOwn props k v p hpm with h | h
      · exact hs p h
      · rw [h]; exact hv

mutual
theorem nullFree_get (v : Val) (k : String) (x : Val) (hv : Val.nullFree v = true)
    (h : Val.get v k = some x) : Val.nullFree x = true := by
  match v with
  | .obj proto props =>
    unfold Val.get at h
    unfold Val.nullFree at hv
    simp only [Bool.and_eq_true] at hv
    cases hl : props.lookup k with
    | some y =>
      rw [hl] at h
      have e := Option.some.inj h
      subst e
      exact (nullFreeProps_iff props).mp hv.2 _ (lookup_mem props k y hl)
    | none =>
      rw [hl] at h
      exact nullFree_getFrom proto k x hv.1 h
  | .arr xs =>
    unfold Val.get at h
    unfold Val.nullFree at hv
    by_cases hk : (k == "length") = true
    · rw [if_pos hk] at h
      cases h
      rfl
    · rw [if_neg hk] at h
      cases hi : arrayIndex? k with
      | none => rw [hi] at h; cases h
      | some i =>
        rw [hi] at h
        exact (nullFreeList_iff xs).mp hv x (List.getElem?_mem h)
  | .null => simp [Val.get] at h
  | .bool _ => simp [Val.get] at h
  | .num _ => simp [Val.get] at h
  | .str _ => simp [Val.get] at h
termination_by structural v
theorem nullFree_getFrom (proto : Option Val) (k : String) (x : Val)
    (hv : nullFreeOpt proto = true) (h : Val.getFrom proto k = some x) :
    Val.nullFree x = true := by
  match proto with
  | none => simp [Val.getFrom] at h
  | some p =>
    unfold Val.getFrom at h
    unfold nullFreeOpt at hv
    exact nullFree_get p k x hv h
termination_by structural proto
end

theorem nullFree_readKey (proto : Option Val) (props : Props) (k : String) (x : Val)
    (hp : nullFreeOpt proto = true) (hs : nullFreeProps props = true)
    (h : readKey proto props k = some x) : Val.nullFree x = true := by
  unfold readKey at h
  cases hl : props.lookup k with
  | some y =>
    rw [hl] at h
    have e := Option.some.inj h
    subst e
    exact (nullFreeProps_iff props).mp hs _ (lookup_mem props k y hl)
  | none =>
    rw [hl] at h
    by_cases hk : (k == "__proto__") = true
    · rw [if_pos hk] at h
      cases h
      cases proto with
      | none => rfl
      | some p => exact hp
    · rw [if_neg hk] at h
      exact nullFree_getFrom proto k x hp h

theorem mergeElems_cons (sv : Val) (rest : List Val) (i : Nat) (proto : Option Val)
    (props : Props) :
    mergeElems (sv :: rest) i proto props =
      match storedValue (readKey proto props (toString i)) sv with
      | .error e => .error e
      | .ok v =>
        mergeElems rest (i + 1) (assign proto props (toString i) v).1
          (assign proto props (toString i) v).2 := by
  rw [mergeElems]
  rfl

theorem readId_total (v : Val) (h : Val.nullFree v = true) :
    readId v = .ok (v.get "id") := by
  cases v with
  | null => simp [Val.nullFree] at h
  | bool _ => rfl
  | num _ => rfl
  | str _ => rfl
  | arr _ => rfl
  | obj _ _ => rfl

theorem idMatches_total (existingItem item : Val) (he : Val.nullFree existingItem = true)
    (hi : Val.nullFree item = true) : ∃ b, idMatches existingItem item = .ok b := by
  unfold idMatches
  rw [readId_total existingItem he, readId_total item hi]
  cases existingItem.get "id" with
  | none => exact ⟨_, rfl⟩
  | some eid =>
    by_cases ht : eid.truthy = true
    · simp only [ht, if_true]
      exact ⟨_, rfl⟩
    · simp only [ht]
      exact ⟨_, rfl⟩

theorem findIndex_total (item : Val) (hi : Val.nullFree item = true) (merged : List Val)
    (hm : nullFreeList merged = true) : ∃ o, findIndex item merged = .ok o := by
  induction merged with
  | nil => exact ⟨none, rfl⟩
  | cons x rest ih =>
    unfold nullFreeList at hm
    simp only [Bool.and_eq_true] at hm
    obtain ⟨b, hb⟩ := idMatches_total x item hm.1 hi
    obtain ⟨o, ho⟩ := ih hm.2
    unfold findIndex
    rw [hb, ho]
    cases b
    · cases o
      · exact ⟨_, rfl⟩
      · exact ⟨_, rfl⟩
    · exact ⟨_, rfl⟩

theorem mergeArrays_total (incoming : List Val) :
    ∀ merged : List Val, nullFreeList merged = true → nullFreeList incoming = true →
      ∃ zs, mergeArrays merged incoming = .ok zs ∧ nullFreeList zs = true := by
  induction incoming with
  | nil => intro merged hm _; exact ⟨merged, rfl, hm⟩
  | cons item rest ih =>
    intro merged hm hi
    unfold nullFreeList at hi
    simp only [Bool.and_eq_true] at hi
    obtain ⟨o, ho⟩ := findIndex_total item hi.1 merged hm
    unfold mergeArrays
    rw [ho]
    cases o with
    | none =>
      refine ih _ ?_ hi.2
      rw [nullFreeList_iff] at hm ⊢
      intro x hx
      rcases List.mem_append.mp hx with h | h
      · exact hm x h
      · rw [List.mem_singleton.mp h]; exact hi.1
    | some idx =>
      refine ih _ ?_ hi.2
      rw [nullFreeList_iff] at hm ⊢
      intro x hx
      rcases List.mem_or_eq_of_mem_set hx with h | h
      · exact hm x h
      · rw [h]; exact hi.1

theorem nullFree_items (t : Val) (h : Val.nullFree t = true) :
    nullFreeList t.items = true := by
  cases t <;> first
    | (simp only [Val.nullFree] at h; exact h)
    | rfl

theorem storedValue_total (rv : Option Val) (sv : Val)
    (hrec : ∀ t, Val.nullFree t = true → ∃ r, deepMerge t sv = .ok r ∧ Val.nullFree r = true)
    (hrv : ∀ t, rv = some t → Val.nullFree t = true) (hsv : Val.nullFree sv = true) :
    ∃ v, storedValue rv sv = .ok v ∧ Val.nullFree v = true := by
  unfold storedValue
  cases rv with
  | none => exact ⟨sv, rfl, hsv⟩
  | some t =>
    simp only
    split
    · exact hrec t (hrv t rfl)
    · split
      · obtain ⟨zs, hz, hn⟩ :=
          mergeArrays_total sv.items t.items (nullFree_items t (hrv t rfl))
            (nullFree_items sv hsv)
        rw [hz]
        exact ⟨_, rfl, by simpa [Val.nullFree] using hn⟩
      · exact ⟨sv, rfl, hsv⟩

theorem nullFree_spread (target : Val) (h : Val.nullFree target = true) :
    nullFreeProps (spread target) = true := by
  cases target with
  | null => rfl
  | bool b => rfl
  | num n => rfl
  | str s =>
    rw [nullFreeProps_iff]
    intro p hp
    have hm := mem_indexed _ _ _ hp
    simp only [charVals, List.mem_map] at hm
    obtain ⟨c, _, hc⟩ := hm
    rw [← hc]
    rfl
  | arr xs =>
    rw [nullFreeProps_iff]
    intro p hp
    unfold Val.nullFree at h
    exact (nullFreeList_iff xs).mp h _ (mem_indexed _ _ _ hp)
  | obj proto props =>
    unfold Val.nullFree at h
    simp only [Bool.and_eq_true] at h
    exact h.2

theorem nullFree_foldl_assign (entries : Props) :
    ∀ st : Option Val × Props, nullFreeProps entries = true →
      nullFreeOpt st.1 = true → nullFreeProps st.2 = true →
      nullFreeOpt (entries.foldl (fun st kv => assign st.1 st.2 kv.1 kv.2) st).1 = true ∧
      nullFreeProps (entries.foldl (fun st kv => assign st.1 st.2 kv.1 kv.2) st).2 = true := by
  induction entries with
  | nil => intro st _ h1 h2; exact ⟨h1, h2⟩
  | cons e rest ih =>
    intro st he h1 h2
    obtain ⟨k, x⟩ := e
    unfold nullFreeProps at he
    simp only [Bool.and_eq_true] at he
    have ha := nullFree_assign st.1 st.2 k x h1 h2 he.1
    exact ih _ he.2 ha.1 ha.2

mutual
/-- On documents without `null`, `deepMerge` returns, and its result is again
without `null`. -/
theorem deepMerge_total (source target : Val) (hs : Val.nullFree source = true)
    (ht : Val.nullFree target = true) :
    ∃ r, deepMerge target source = .ok r ∧ Val.nullFree r = true := by
  match source with
  | .null => simp [Val.nullFree] at hs
  | .bool b => exact ⟨_, rfl, by simpa [Val.nullFree, nullFreeOpt] using nullFree_spread target ht⟩
  | .num n => exact ⟨_, rfl, by simpa [Val.nullFree, nullFreeOpt] using nullFree_spread target ht⟩
  | .str s =>
    refine ⟨_, rfl, ?_⟩
    have hc : nullFreeProps (indexed (charVals s) 0) = true :=
      nullFree_spread (.str s) rfl
    have h := nullFree_foldl_assign (indexed (charVals s) 0) (none, spread target) hc rfl
      (nullFree_spread target ht)
    simpa [Val.nullFree] using h
  | .arr xs =>
    unfold Val.nullFree at hs
    unfold deepMerge
    exact mergeElems_total xs 0 none (spread target) hs rfl (nullFree_spread target ht)
  | .obj sp sprops =>
    unfold Val.nullFree at hs
    simp only [Bool.and_eq_true] at hs
    unfold deepMerge
    exact mergeProps_total sprops none (spread target) hs.2 rfl (nullFree_spread target ht)
termination_by structural source
theorem mergeProps_total (sprops : List (String × Val)) (proto : Option Val) (props : Props)
    (hs : nullFreeProps sprops = true) (hp : nullFreeOpt proto = true)
    (hr : nullFreeProps props = true) :
    ∃ r, mergeProps sprops proto props = .ok r ∧ Val.nullFree r = true := by
  match sprops with
  | [] => exact ⟨_, rfl, by simp [Val.nullFree, hp, hr]⟩
  | (key, sv) :: rest =>
    unfold nullFreeProps at hs
    simp only [Bool.and_eq_true] at hs
    obtain ⟨v, hv, hn⟩ := storedValue_total (readKey proto props key) sv
      (fun t ht => deepMerge_total sv t hs.1 ht)
      (fun t ht => nullFree_readKey proto props key t hp hr ht) hs.1
    rw [mergeProps_cons, hv]
    have ha := nullFree_assign proto props key v hp hr hn
    exact mergeProps_total rest _ _ hs.2 ha.1 ha.2
termination_by structural sprops
theorem mergeElems_total (xs : List Val) (i : Nat) (proto : Option Val) (props : Props)
    (hs : nullFreeList xs = true) (hp : nullFreeOpt proto = true)
    (hr : nullFreeProps props = true) :
    ∃ r, mergeElems xs i proto props = .ok r ∧ Val.nullFree r = true := by
  match xs with
  | [] => exact ⟨_, rfl, by simp [Val.nullFree, hp, hr]⟩
  | sv :: rest =>
    unfold nullFreeList at hs
    simp only [Bool.and_eq_true] at hs
    obtain ⟨v, hv, hn⟩ := storedValue_total (readKey proto props (toString i)) sv
      (fun t ht => deepMerge_total sv t hs.1 ht)
      (fun t ht => nullFree_readKey proto props (toString i) t hp hr ht) hs.1
    rw [mergeElems_cons, hv]
    have ha := nullFree_assign proto props (toString i) v hp hr hn
    exact mergeElems_total rest _ _ _ hs.2 ha.1 ha.2
termination_by structural xs
end

theorem deepMerge_obj (tp sp : Option Val) (tprops sprops : Props) :
    deepMerge (.obj tp tprops) (.obj sp sprops) = mergeProps sprops none tprops := by
  rw [deepMerge]
  rfl

theorem storedValue_mappings (t sv : Val) (ht : t.isMapping = true) (hs : sv.isMapping = true) :
    storedValue (some t) sv = deepMerge t sv := by
  cases t <;> cases sv <;> first
    | (simp [Val.isMapping] at ht; done)
    | (simp [Val.isMapping] at hs; done)
    | rfl

/-- C1 (frame): the documents are objects (their keys are distinct, as in
every JavaScript object) and both hold a `servers` mapping.  A key `k` of
`existing.servers` that is not a key of `incoming.servers` is a key of the
`servers` mapping of every result of `deepMerge(existing, incoming)`, bound
to the entry it had in `existing`; and for documents without `null` the
merge does return such a result. -/
theorem deepMerge_keeps_absent_servers (ep ip : Option Val) (eprops iprops : Props)
    (es isv : Val) (k : String) (entry : Val)
    (hnd : (iprops.map Prod.fst).Nodup)
    (he : eprops.lookup "servers" = some es) (hi : iprops.lookup "servers" = some isv)
    (hes : es.isMapping = true) (his : isv.isMapping = true)
    (hk : es.own k = some entry) (hnk : isv.own k = none) :
    (∀ r, deepMerge (.obj ep eprops) (.obj ip iprops) = .ok r →
        ∃ rs, r.own "servers" = some rs ∧ rs.own k = some entry) ∧
      (Val.nullFree (.obj ep eprops) = true → Val.nullFree (.obj ip iprops) = true →
        ∃ r rs, deepMerge (.obj ep eprops) (.obj ip iprops) = .ok r ∧
          r.own "servers" = some rs ∧ rs.own k = some entry) := by
  have frame : ∀ r, deepMerge (.obj ep eprops) (.obj ip iprops) = .ok r →
      ∃ rs, r.own "servers" = some rs ∧ rs.own k = some entry := by
    intro r hr
    rw [deepMerge_obj] at hr
    obtain ⟨rs, hrs, hown⟩ := mergeProps_at iprops none eprops r "servers" isv es hr hnd hi he
    refine ⟨rs, hown, ?_⟩
    rw [storedValue_mappings es isv hes his] at hrs
    cases es with
    | obj p1 ps1 =>
      cases isv with
      | obj p2 ps2 =>
        rw [deepMerge_obj] at hrs
        rw [mergeProps_frame ps2 none ps1 rs k hrs (lookup_none_ne ps2 k hnk)]
        exact hk
      | _ => simp [Val.isMapping] at his
    | _ => simp [Val.isMapping] at hes
  refine ⟨frame, ?_⟩
  intro h1 h2
  obtain ⟨r, hr, _⟩ := deepMerge_total (.obj ip iprops) (.obj ep eprops) h2 h1
  obtain ⟨rs, h3, h4⟩ := frame r hr
  exact ⟨r, rs, hr, h3, h4⟩

/-- Witness of C1: an existing document with a user-added server `custom`
merged with the generated document. -/
theorem deepMerge_keeps_absent_servers_witness :
    ∃ r rs,
      deepMerge
        (.obj none [("servers", .obj none [("custom", .obj none [("type", .str "stdio")])])])
        (.obj none [("servers", .obj none [("memory", .obj none [("type", .str "stdio")])])])
        = .ok r ∧
      r.own "servers" = some rs ∧
      rs.own "custom" = some (.obj none [("type", .str "stdio")]) :=
  (deepMerge_keeps_absent_servers none none
    [("servers", .obj none [("custom", .obj none [("type", .str "stdio")])])]
    [("servers", .obj none [("memory", .obj none [("type", .str "stdio")])])]
    (.obj none [("custom", .obj none [("type", .str "stdio")])])
    (.obj none [("memory", .obj none [("type", .str "stdio")])])
    "custom" (.obj none [("type", .str "stdio")])
    (by decide) rfl rfl rfl rfl rfl rfl).2 rfl rfl

/-- C2 (failing input): merging the document whose one key `args` holds
`["-y"]` into itself appends the element again, and merging the same incoming document once more appends it
a third time, so `deepMerge(deepMerge(e, i), i)` differs from
`deepMerge(e, i)`.  All values involved are strings, for which strict
equality is equality of values. -/
theorem deepMerge_second_merge_differs :
    deepMerge (.object [("args", .arr [.str "-y"])]) (.object [("args", .arr [.str "-y"])])
        = .ok (.object [("args", .arr [.str "-y", .str "-y"])]) ∧
      deepMerge (.object [("args", .arr [.str "-y", .str "-y"])])
          (.object [("args", .arr [.str "-y"])])
        = .ok (.object [("args", .arr [.str "-y", .str "-y", .str "-y"])]) ∧
      Val.object [("args", .arr [.str "-y", .str "-y", .str "-y"])]
        ≠ Val.object [("args", .arr [.str "-y", .str "-y"])] := by
  refine ⟨rfl, rfl, ?_⟩
  intro h
  simp [Val.object] at h

/-- C3 (failing input): merging the generated document into itself, as a
repeat run does, doubles the `args` list of `azure-devops`; the result is not
the generated document. -/
theorem deepMerge_repeat_run_doubles_args :
    ∃ r servers entry,
      deepMerge (buildMcpConfig none) (buildMcpConfig none) = .ok r ∧
      r.own "servers" = some servers ∧
      servers.own "azure-devops" = some entry ∧
      entry.own "args" = some (.arr [
        .str "-y", .str "@azure-devops/mcp@latest", .str "$\x7binput:ado_org\x7d",
        .str "-y", .str "@azure-devops/mcp@latest", .str "$\x7binput:ado_org\x7d"]) ∧
      r ≠ buildMcpConfig none := by
  refine ⟨_, _, _, rfl, rfl, rfl, rfl, ?_⟩
  intro h
  have h2 := congrArg (fun v : Val =>
    (((v.own "servers").bind (fun x => x.own "azure-devops")).bind
      (fun x => x.own "args")).map (fun x => x.items.length)) h
  revert h2
  decide

/-- The function taken alone: with a mapping in the first document and
`null` in the second under the same key, `deepMerge` raises a `TypeError`
instead of storing the `null`.  The script never passes such a second
document: every call has the generated document, or a mapping inside it, as
`source`. -/
theorem deepMerge_null_over_mapping_throws :
    deepMerge (.object [("a", .object [])]) (.object [("a", .null)])
      = .error .typeError := rfl

theorem idsMatch_iff (x y : Option Val) :
    idsMatch x y = true ↔ ∃ v, identOf x = some v ∧ identOf y = some v := by
  rcases x with _ | (_ | (_ | _) | n | s | xs | ⟨p, ps⟩) <;>
    rcases y with _ | (_ | (_ | _) | m | t | ys | ⟨q, qs⟩) <;>
    simp [idsMatch, identOf, strictEquals, Val.truthy]
  all_goals (intro h1 h2; subst h2; exact h1)

theorem sameId_iff (a b : Val) :
    sameId a b = true ↔ ∃ v, identifier? a = some v ∧ identifier? b = some v :=
  idsMatch_iff _ _

theorem idMatches_eq_sameId (existingItem item : Val) (he : existingItem ≠ .null)
    (hi : item ≠ .null) : idMatches existingItem item = .ok (sameId existingItem item) := by
  have h1 : readId existingItem = .ok (existingItem.get "id") := by
    cases existingItem <;> first | rfl | exact absurd rfl he
  have h2 : readId item = .ok (item.get "id") := by
    cases item <;> first | rfl | exact absurd rfl hi
  unfold idMatches sameId idsMatch
  rw [h1, h2]
  cases existingItem.get "id" with
  | none => rfl
  | some v =>
    cases hv : v.truthy <;> simp [hv]

/-- The index search and the update that follows it amount to the
replace-or-append step of the specification. -/
theorem findIndex_step (item : Val) (hi : item ≠ .null) (merged : List Val)
    (hm : ∀ x ∈ merged, x ≠ Val.null) :
    ∃ o, findIndex item merged = .ok o ∧
      ((o = none ∧ merged.any (fun x => sameId x item) = false) ∨
        (∃ i, o = some i ∧ merged.any (fun x => sameId x item) = true ∧
          merged.set i item = replaceFirst (fun x => sameId x item) item merged)) := by
  induction merged with
  | nil => exact ⟨none, rfl, Or.inl ⟨rfl, rfl⟩⟩
  | cons x rest ih =>
    have hx := idMatches_eq_sameId x item (hm x (List.mem_cons_self _ _)) hi
    obtain ⟨o, ho, hcase⟩ := ih (fun y hy => hm y (List.mem_cons_of_mem _ hy))
    unfold findIndex
    rw [hx]
    cases hs : sameId x item with
    | true =>
      refine ⟨some 0, rfl, Or.inr ⟨0, rfl, ?_, ?_⟩⟩
      · simp [hs]
      · simp [replaceFirst, hs]
    | false =>
      rcases hcase with ⟨h1, h2⟩ | ⟨i, h1, h2, h3⟩
      · subst h1
        refine ⟨none, ?_, Or.inl ⟨rfl, ?_⟩⟩
        · simp only [ho]
        · simp [hs, h2]
      · subst h1
        refine ⟨some (i + 1), ?_, Or.inr ⟨i + 1, rfl, ?_, ?_⟩⟩
        · simp only [ho]
        · simp [hs, h2]
        · simp [replaceFirst, hs, h3]

/-- On sequences without `null` elements the array branch of `deepMerge`
returns the merge by identifier. -/
theorem mergeArrays_eq_spec (incoming : List Val) :
    ∀ merged : List Val, (∀ x ∈ merged, x ≠ Val.null) → (∀ y ∈ incoming, y ≠ Val.null) →
      mergeArrays merged incoming = .ok (specMergeById merged incoming) := by
  induction incoming with
  | nil => intro merged _ _; rfl
  | cons item rest ih =>
    intro merged hm hi
    have hitem : item ≠ Val.null := hi item (List.mem_cons_self _ _)
    have hrest : ∀ y ∈ rest, y ≠ Val.null := fun y hy => hi y (List.mem_cons_of_mem _ hy)
    obtain ⟨o, ho, hcase⟩ := findIndex_step item hitem merged hm
    unfold mergeArrays specMergeById
    rw [ho, List.foldl_cons]
    rcases hcase with ⟨h1, h2⟩ | ⟨i, h1, h2, h3⟩
    · subst h1
      simp only [h2]
      refine ih _ ?_ hrest
      intro x hx
      rcases List.mem_append.mp hx with h | h
      · exact hm x h
      · rw [List.mem_singleton.mp h]; exact hitem
    · subst h1
      simp only [h2, if_true]
      rw [← h3]
      refine ih _ ?_ hrest
      intro x hx
      rcases List.mem_or_eq_of_mem_set hx with h | h
      · exact hm x h
      · rw [h]; exact hitem

theorem identifiers_replaceFirst (item : Val) (acc : List Val) :
    identifiers (replaceFirst (fun x => sameId x item) item acc) = identifiers acc := by
  induction acc with
  | nil => rfl
  | cons x rest ih =>
    unfold replaceFirst
    cases hs : sameId x item with
    | true =>
      obtain ⟨v, h1, h2⟩ := (sameId_iff x item).mp hs
      simp [identifiers, List.filterMap_cons, h1, h2]
    | false =>
      simp only [identifiers, Bool.false_eq_true, if_false] at ih ⊢
      rw [List.filterMap_cons, List.filterMap_cons, ih]

theorem identifiers_append_nodup (item : Val) (acc : List Val)
    (hany : acc.any (fun x => sameId x item) = false) (hnd : (identifiers acc).Nodup) :
    (identifiers (acc ++ [item])).Nodup := by
  unfold identifiers at hnd ⊢
  rw [List.filterMap_append]
  cases hi : identifier? item with
  | none => simpa [List.filterMap_cons, hi] using hnd
  | some v =>
    simp only [List.filterMap_cons, hi, List.filterMap_nil]
    rw [List.nodup_append]
    refine ⟨hnd, List.nodup_singleton v, ?_⟩
    intro w hw hw2
    rw [List.mem_singleton] at hw2
    subst hw2
    rw [List.mem_filterMap] at hw
    obtain ⟨x, hx, hxv⟩ := hw
    have : sameId x item = true := (sameId_iff x item).mpr ⟨w, hxv, hi⟩
    have h2 : acc.any (fun x => sameId x item) = true :=
      List.any_eq_true.mpr ⟨x, hx, this⟩
    rw [hany] at h2
    cases h2

/-- The merge by identifier keeps identifiers distinct. -/
theorem specMergeById_nodup (incoming : List Val) :
    ∀ existing : List Val, (identifiers existing).Nodup →
      (identifiers (specMergeById existing incoming)).Nodup := by
  induction incoming with
  | nil => intro existing h; exact h
  | cons item rest ih =>
    intro existing h
    unfold specMergeById
    rw [List.foldl_cons]
    cases hany : existing.any (fun x => sameId x item) with
    | true =>
      simp only [if_true]
      refine ih _ ?_
      rw [identifiers_replaceFirst]
      exact h
    | false =>
      simp only [Bool.false_eq_true, if_false]
      exact ih _ (identifiers_append_nodup item existing hany h)

theorem storedValue_arrays (xs ys : List Val) :
    storedValue (some (.arr xs)) (.arr ys) =
      match mergeArrays xs ys with
      | .error e => .error e
      | .ok mergedArray => .ok (.arr mergedArray) := rfl

/-- What the array branch computes.  Under a key that holds a sequence in
both documents, none of whose elements is `null`, every result of
`deepMerge` holds `specMergeById` of the two sequences, where two elements
have the same identifier only when the `id` of the first is truthy and
strictly equal to the `id` of the second.  For documents without `null` the
merge does return such a result.  When the existing sequence holds at most
one element per truthy string, number or boolean `id`, so does the
result. -/
theorem deepMerge_arrays_by_identifier (ep ip : Option Val) (eprops iprops : Props)
    (key : String) (xs ys : List Val)
    (hnd : (iprops.map Prod.fst).Nodup)
    (he : eprops.lookup key = some (.arr xs)) (hi : iprops.lookup key = some (.arr ys))
    (hxs : ∀ x ∈ xs, x ≠ Val.null) (hys : ∀ y ∈ ys, y ≠ Val.null) :
    (∀ r, deepMerge (.obj ep eprops) (.obj ip iprops) = .ok r →
        r.own key = some (.arr (specMergeById xs ys))) ∧
      (Val.nullFree (.obj ep eprops) = true → Val.nullFree (.obj ip iprops) = true →
        ∃ r, deepMerge (.obj ep eprops) (.obj ip iprops) = .ok r ∧
          r.own key = some (.arr (specMergeById xs ys))) ∧
      ((identifiers xs).Nodup → (identifiers (specMergeById xs ys)).Nodup) := by
  have part : ∀ r, deepMerge (.obj ep eprops) (.obj ip iprops) = .ok r →
      r.own key = some (.arr (specMergeById xs ys)) := by
    intro r hr
    rw [deepMerge_obj] at hr
    obtain ⟨v, hv, hown⟩ := mergeProps_at iprops none eprops r key _ _ hr hnd hi he
    rw [storedValue_arrays, mergeArrays_eq_spec ys xs hxs hys] at hv
    cases hv
    exact hown
  refine ⟨part, ?_, specMergeById_nodup ys xs⟩
  intro h1 h2
  obtain ⟨r, hr, _⟩ := deepMerge_total (.obj ip iprops) (.obj ep eprops) h2 h1
  exact ⟨r, hr, part r hr⟩

/-- The example of the specification: existing ids `a`, `b` and incoming ids
`b`, `c`. -/
theorem deepMerge_arrays_by_identifier_witness :
    ∃ r,
      deepMerge
        (.obj none [("inputs", .arr [.object [("id", .str "a")], .object [("id", .str "b")]])])
        (.obj none [("inputs", .arr [
          .object [("id", .str "b"), ("description", .str "new")],
          .object [("id", .str "c")]])]) = .ok r ∧
      r.own "inputs" = some (.arr (specMergeById
        [.object [("id", .str "a")], .object [("id", .str "b")]]
        [.object [("id", .str "b"), ("description", .str "new")], .object [("id", .str "c")]])) ∧
      specMergeById
        [.object [("id", .str "a")], .object [("id", .str "b")]]
        [.object [("id", .str "b"), ("description", .str "new")], .object [("id", .str "c")]]
        = [.object [("id", .str "a")],
           .object [("id", .str "b"), ("description", .str "new")],
           .object [("id", .str "c")]] :=
  have h := (deepMerge_arrays_by_identifier none none
    [("inputs", .arr [.object [("id", .str "a")], .object [("id", .str "b")]])]
    [("inputs", .arr [
      .object [("id", .str "b"), ("description", .str "new")], .object [("id", .str "c")]])]
    "inputs"
    [.object [("id", .str "a")], .object [("id", .str "b")]]
    [.object [("id", .str "b"), ("description", .str "new")], .object [("id", .str "c")]]
    (by decide) rfl rfl (by simp [Val.object]) (by simp [Val.object])).2.1 rfl rfl
  match h with
  | ⟨r, h1, h2⟩ => ⟨r, h1, h2, rfl⟩

/-- The function taken alone: the existing element and the incoming element
both have the `id` `0`, yet the incoming element does not replace the
existing one, because the callback asks for a truthy `id`: it is appended,
and the result holds two elements with that `id`. -/
theorem deepMerge_falsy_id_not_replaced :
    deepMerge
        (.object [("inputs", .arr [.object [("id", .num 0)]])])
        (.object [("inputs", .arr [.object [("id", .num 0), ("description", .str "new")]])])
      = .ok (.object [("inputs", .arr [
          .object [("id", .num 0)],
          .object [("id", .num 0), ("description", .str "new")]])]) ∧
      (Val.object [("id", .num 0)]).get "id"
        = (Val.object [("id", .num 0), ("description", .str "new")]).get "id" ∧
      Val.arr [.object [("id", .num 0)], .object [("id", .num 0), ("description", .str "new")]]
        ≠ Val.arr [.object [("id", .num 0), ("description", .str "new")]] :=
  ⟨rfl, rfl, by simp⟩

/-- A value of the second document that is not `null` is stored as it is
whenever the two values under the key are neither both mappings nor both
sequences. -/
theorem storedValue_differing_shape (t sv : Val) (hnull : sv ≠ .null)
    (hmap : ¬ (t.isMapping = true ∧ sv.isMapping = true))
    (harr : ¬ (t.isArray = true ∧ sv.isArray = true)) :
    storedValue (some t) sv = .ok sv := by
  cases t <;> cases sv <;>
    simp [storedValue, Val.truthy, Val.typeofObject, Val.isArray, Val.isMapping]
      at hnull hmap harr ⊢

/-- C4 (failing input): the existing `inputs` list holds two declarations
with the id `ado_org`.  Merging the generated document replaces the first of
them by the incoming declaration and keeps the second, so the result holds
two elements with the same identifier instead of one. -/
theorem deepMerge_existing_duplicate_id_kept :
    ∃ r first second,
      deepMerge
        (.object [("inputs", .arr [
          .object [("id", .str "ado_org"), ("description", .str "old")],
          .object [("id", .str "ado_org"), ("description", .str "older")]])])
        (buildMcpConfig none) = .ok r ∧
      r.own "inputs" = some (.arr [first, second]) ∧
      first.own "id" = some (.str "ado_org") ∧
      first.own "type" = some (.str "promptString") ∧
      second = .object [("id", .str "ado_org"), ("description", .str "older")] ∧
      second.own "id" = first.own "id" :=
  ⟨_, _, _, rfl, rfl, rfl, rfl, rfl, rfl⟩

/-- C5 (failing input): the existing document holds a string under `servers`,
where the generated document holds a mapping, and a `null` element in its
`inputs` list.  `deepMerge` reaches `inputs` first and raises a `TypeError`
there, so it does not return and the incoming `servers` value is never
stored. -/
theorem deepMerge_differing_shape_not_stored :
    (Val.object [("inputs", .arr [.null]), ("servers", .str "legacy")]).own "servers"
        = some (.str "legacy") ∧
      (∃ servers, (buildMcpConfig none).own "servers" = some servers ∧
        servers.isMapping = true) ∧
      deepMerge (.object [("inputs", .arr [.null]), ("servers", .str "legacy")])
        (buildMcpConfig none) = .error .typeError :=
  ⟨rfl, ⟨_, rfl, rfl⟩, rfl⟩

/-! ### writeMcpJson -/

theorem backupPath_ne (mcpJsonPath stamp : String) :
    mcpJsonPath ++ ".backup." ++ stamp ≠ mcpJsonPath := by
  intro h
  have hl := congrArg String.length h
  simp only [String.length_append] at hl
  have : (".backup." : String).length = 8 := by decide
  omega

/-- What `writeMcpJson` does when the `catch` block runs: the directory is
created, the old content is copied to the backup path, and the incoming
document alone is written. -/
theorem writeMcpJson_catch (env : Env) (configDir : String) (newConfig : Val) (w : World)
    (content : String) (hdry : DRY_RUN env = false)
    (hfile : w.files (env.join [configDir, "mcp.json"]) = some content)
    (hcatch : env.jsonParse content = none ∨
      ∃ existingConfig e, env.jsonParse content = some existingConfig ∧
        deepMerge existingConfig newConfig = .error e) :
    (writeMcpJson env configDir newConfig w).trace = w.trace ++ [
        .mkdir configDir,
        .print .warn ("Could not parse existing " ++ env.join [configDir, "mcp.json"]
          ++ " – creating backup and overwriting"),
        .writeFile (env.join [configDir, "mcp.json"] ++ ".backup."
          ++ toString (env.dateNow w.clockReads)) content,
        .print .ok ("Backup saved to " ++ (env.join [configDir, "mcp.json"] ++ ".backup."
          ++ toString (env.dateNow w.clockReads))),
        .writeFile (env.join [configDir, "mcp.json"]) (env.jsonStringify newConfig),
        .print .ok ("Written " ++ env.join [configDir, "mcp.json"])] ∧
      (writeMcpJson env configDir newConfig w).files
          (env.join [configDir, "mcp.json"] ++ ".backup."
            ++ toString (env.dateNow w.clockReads)) = some content ∧
      (writeMcpJson env configDir newConfig w).files (env.join [configDir, "mcp.json"])
        = some (env.jsonStringify newConfig) := by
  have hne := backupPath_ne (env.join [configDir, "mcp.json"])
    (toString (env.dateNow w.clockReads))
  have hres : (match env.jsonParse content with
      | some existingConfig =>
        match deepMerge existingConfig newConfig with
        | .ok finalConfig =>
          (finalConfig, log ("Merged with existing config at "
            ++ env.join [configDir, "mcp.json"]) (w.emit (.mkdir configDir)))
        | .error _ =>
          (newConfig, backupExisting env (env.join [configDir, "mcp.json"]) content
            (w.emit (.mkdir configDir)))
      | none =>
        (newConfig, backupExisting env (env.join [configDir, "mcp.json"]) content
          (w.emit (.mkdir configDir))))
      = (newConfig, backupExisting env (env.join [configDir, "mcp.json"]) content
          (w.emit (.mkdir configDir))) := by
    rcases hcatch with h | ⟨existingConfig, e, h1, h2⟩
    · rw [h]
    · rw [h1]
      simp only [h2]
  unfold writeMcpJson
  simp only [hdry, Bool.false_eq_true, if_false, World.emit, hfile]
  simp only [World.emit] at hres
  rw [hres]
  simp [backupExisting, World.writeFileSync, log, logWarn, World.emit, hne]

/-- C7: when the existing `mcp.json` does not parse, `writeMcpJson` (outside
dry-run) runs to its last statement: it creates the directory, copies the
unreadable content unchanged to `mcp.json.backup.<timestamp>`, then writes
the serialization of the incoming document alone to `mcp.json`. -/
theorem writeMcpJson_unparsable_backup (env : Env) (configDir : String) (newConfig : Val)
    (w : World) (content : String) (hdry : DRY_RUN env = false)
    (hfile : w.files (env.join [configDir, "mcp.json"]) = some content)
    (hparse : env.jsonParse content = none) :
    (writeMcpJson env configDir newConfig w).trace = w.trace ++ [
        .mkdir configDir,
        .print .warn ("Could not parse existing " ++ env.join [configDir, "mcp.json"]
          ++ " – creating backup and overwriting"),
        .writeFile (env.join [configDir, "mcp.json"] ++ ".backup."
          ++ toString (env.dateNow w.clockReads)) content,
        .print .ok ("Backup saved to " ++ (env.join [configDir, "mcp.json"] ++ ".backup."
          ++ toString (env.dateNow w.clockReads))),
        .writeFile (env.join [configDir, "mcp.json"]) (env.jsonStringify newConfig),
        .print .ok ("Written " ++ env.join [configDir, "mcp.json"])] ∧
      (writeMcpJson env configDir newConfig w).files
          (env.join [configDir, "mcp.json"] ++ ".backup."
            ++ toString (env.dateNow w.clockReads)) = some content ∧
      (writeMcpJson env configDir newConfig w).files (env.join [configDir, "mcp.json"])
        = some (env.jsonStringify newConfig) :=
  writeMcpJson_catch env configDir newConfig w content hdry hfile (Or.inl hparse)

/-- Witness of C7: an `mcp.json` holding the text `not json`. -/
theorem writeMcpJson_unparsable_backup_witness :
    (writeMcpJson (sampleEnv [] (fun _ => none)) "/cfg" (buildMcpConfig none)
        (sampleWorld "/cfg/mcp.json" "not json")).files "/cfg/mcp.json.backup.1700000000000"
      = some "not json" :=
  (writeMcpJson_unparsable_backup (sampleEnv [] (fun _ => none)) "/cfg" (buildMcpConfig none)
    (sampleWorld "/cfg/mcp.json" "not json") "not json" (by decide) (by decide) rfl).2.1

/-- The `try` block of `writeMcpJson` when nothing is raised: the merged
document is written and no backup is made. -/
theorem writeMcpJson_merged (env : Env) (configDir : String) (newConfig : Val) (w : World)
    (content : String) (existingConfig finalConfig : Val) (hdry : DRY_RUN env = false)
    (hfile : w.files (env.join [configDir, "mcp.json"]) = some content)
    (hparse : env.jsonParse content = some existingConfig)
    (hmerge : deepMerge existingConfig newConfig = .ok finalConfig) :
    (writeMcpJson env configDir newConfig w).trace = w.trace ++ [
        .mkdir configDir,
        .print .ok ("Merged with existing config at " ++ env.join [configDir, "mcp.json"]),
        .writeFile (env.join [configDir, "mcp.json"]) (env.jsonStringify finalConfig),
        .print .ok ("Written " ++ env.join [configDir, "mcp.json"])] ∧
      (writeMcpJson env configDir newConfig w).files (env.join [configDir, "mcp.json"])
        = some (env.jsonStringify finalConfig) := by
  unfold writeMcpJson
  simp only [hdry, Bool.false_eq_true, if_false, World.emit, hfile, hparse, hmerge]
  simp [World.writeFileSync, log, World.emit]

/-- C6 (failing input): the existing `mcp.json` parses to the document whose
`inputs` list holds `null`.  Merging the generated document into it raises a
`TypeError` inside the `try` block, so the file is reported as unparsable,
copied to a backup, and overwritten with the generated document alone. -/
theorem writeMcpJson_parsed_file_overwritten (env : Env) (configDir : String) (w : World)
    (content : String) (hdry : DRY_RUN env = false)
    (hfile : w.files (env.join [configDir, "mcp.json"]) = some content)
    (hparse : env.jsonParse content = some (.object [("inputs", .arr [.null])])) :
    deepMerge (.object [("inputs", .arr [.null])]) (buildMcpConfig none)
        = .error .typeError ∧
      (writeMcpJson env configDir (buildMcpConfig none) w).trace = w.trace ++ [
        .mkdir configDir,
        .print .warn ("Could not parse existing " ++ env.join [configDir, "mcp.json"]
          ++ " – creating backup and overwriting"),
        .writeFile (env.join [configDir, "mcp.json"] ++ ".backup."
          ++ toString (env.dateNow w.clockReads)) content,
        .print .ok ("Backup saved to " ++ (env.join [configDir, "mcp.json"] ++ ".backup."
          ++ toString (env.dateNow w.clockReads))),
        .writeFile (env.join [configDir, "mcp.json"])
          (env.jsonStringify (buildMcpConfig none)),
        .print .ok ("Written " ++ env.join [configDir, "mcp.json"])] ∧
      (writeMcpJson env configDir (buildMcpConfig none) w).files
          (env.join [configDir, "mcp.json"] ++ ".backup."
            ++ toString (env.dateNow w.clockReads)) = some content ∧
      (writeMcpJson env configDir (buildMcpConfig none) w).files
          (env.join [configDir, "mcp.json"])
        = some (env.jsonStringify (buildMcpConfig none)) :=
  ⟨rfl, writeMcpJson_catch env configDir (buildMcpConfig none) w content hdry hfile
    (Or.inr ⟨_, _, hparse, rfl⟩)⟩

/-- Witness of C6: a file that parses to that document is copied to the
backup path. -/
theorem writeMcpJson_parsed_file_overwritten_witness :
    (writeMcpJson (sampleEnv [] (fun _ => some (.object [("inputs", .arr [.null])]))) "/cfg"
        (buildMcpConfig none)
        (sampleWorld "/cfg/mcp.json" "\x7b\"inputs\":[null]\x7d")).files
        "/cfg/mcp.json.backup.1700000000000"
      = some "\x7b\"inputs\":[null]\x7d" :=
  (writeMcpJson_parsed_file_overwritten
    (sampleEnv [] (fun _ => some (.object [("inputs", .arr [.null])]))) "/cfg"
    (sampleWorld "/cfg/mcp.json" "\x7b\"inputs\":[null]\x7d") "\x7b\"inputs\":[null]\x7d"
    (by decide) (by decide) rfl).2.2.1

/-! ### startNeo4jDocker -/

/-- C10: when `docker info` succeeds, the existence check succeeds and the
running-state check prints `true`, `startNeo4jDocker` returns `true`, in
dry-run and in normal mode alike, and the commands it runs are exactly the
availability check and the two inspect calls; no file changes. -/
theorem startNeo4jDocker_running_noop (env : Env) (w : World) (o1 o2 o3 : String)
    (h1 : env.execSync dockerInfoCommand = .ok o1)
    (h2 : env.execSync dockerInspectCommand = .ok o2)
    (h3 : env.execSync dockerInspectRunningCommand = .ok o3)
    (h4 : jsTrim o3 = "true") :
    (startNeo4jDocker env w).1 = .ok true ∧
      (startNeo4jDocker env w).2.trace = w.trace ++ [
        .print .step "Setting up Neo4j Docker container",
        .exec dockerInfoCommand,
        .print .ok "Docker is available",
        .exec dockerInspectCommand,
        .exec dockerInspectRunningCommand,
        .print .ok ("Container \x27" ++ NEO4J_DOCKER.containerName
          ++ "\x27 is already running")] ∧
      (startNeo4jDocker env w).2.files = w.files ∧
      commandsOf ((startNeo4jDocker env w).2.trace.drop w.trace.length)
        = [dockerInfoCommand, dockerInspectCommand, dockerInspectRunningCommand] := by
  have ht : (startNeo4jDocker env w).2.trace = w.trace ++ [
        .print .step "Setting up Neo4j Docker container",
        .exec dockerInfoCommand,
        .print .ok "Docker is available",
        .exec dockerInspectCommand,
        .exec dockerInspectRunningCommand,
        .print .ok ("Container \x27" ++ NEO4J_DOCKER.containerName
          ++ "\x27 is already running")] := by
    simp [startNeo4jDocker, isDockerAvailable, doesNeo4jContainerExist,
      isNeo4jContainerRunning, h1, h2, h3, h4, log, logStep, World.emit]
  refine ⟨?_, ht, ?_, ?_⟩
  · simp [startNeo4jDocker, isDockerAvailable, doesNeo4jContainerExist,
      isNeo4jContainerRunning, h1, h2, h3, h4]
  · simp [startNeo4jDocker, isDockerAvailable, doesNeo4jContainerExist,
      isNeo4jContainerRunning, h1, h2, h3, h4, log, logStep, World.emit]
  · rw [ht, List.drop_left]
    rfl

/-- Witness of C10: the sample environment, whose container is running. -/
theorem startNeo4jDocker_running_noop_witness :
    (startNeo4jDocker (sampleEnv [] (fun _ => none)) (sampleWorld "" "")).1 = .ok true :=
  (startNeo4jDocker_running_noop (sampleEnv [] (fun _ => none)) (sampleWorld "" "")
    "" "" "true\n" rfl rfl rfl (by decide)).1

/-! ### buildMcpConfig -/

/-- C8: for every path argument the generated document has exactly one
input-prompt declaration, with id `ado_org`, and exactly seven servers: the
six fixed entries, of which `microsoft-learn` is remote HTTP and the other
five are standard-I/O, and `neo4j`, whose command is the path when a
non-empty path is given and the literal `neo4j-mcp` when the path is absent
or empty.  With `--skip-neo4j` the driver passes no path, so the command is
the literal. -/
theorem buildMcpConfig_shape :
    (∀ p : Option String,
      (∃ decl, (buildMcpConfig p).own "inputs" = some (.arr [decl]) ∧
        decl.own "id" = some (.str "ado_org")) ∧
      (∃ sprops, (buildMcpConfig p).own "servers" = some (.obj none sprops) ∧
        sprops.map Prod.fst = ["azure-devops", "sequential-thinking", "microsoft-learn",
          "memory", "mongodb", "mssql", "neo4j"]) ∧
      serverField (buildMcpConfig p) "azure-devops" "type" = some (.str "stdio") ∧
      serverField (buildMcpConfig p) "sequential-thinking" "type" = some (.str "stdio") ∧
      serverField (buildMcpConfig p) "microsoft-learn" "type" = some (.str "http") ∧
      serverField (buildMcpConfig p) "memory" "type" = some (.str "stdio") ∧
      serverField (buildMcpConfig p) "mongodb" "type" = some (.str "stdio") ∧
      serverField (buildMcpConfig p) "mssql" "type" = some (.str "stdio") ∧
      serverField (buildMcpConfig p) "neo4j" "type" = some (.str "stdio")) ∧
    (∀ path : String, path ≠ "" →
      serverField (buildMcpConfig (some path)) "neo4j" "command" = some (.str path)) ∧
    serverField (buildMcpConfig none) "neo4j" "command" = some (.str "neo4j-mcp") ∧
    serverField (buildMcpConfig (some "")) "neo4j" "command" = some (.str "neo4j-mcp") ∧
    (∀ (env : Env) (w : World), SKIP_NEO4J env = true →
      mainBinaryPath env w = none ∧
      serverField (buildMcpConfig (mainBinaryPath env w)) "neo4j" "command"
        = some (.str "neo4j-mcp")) := by
  refine ⟨fun p => ⟨⟨_, rfl, rfl⟩, ⟨_, rfl, rfl⟩, rfl, rfl, rfl, rfl, rfl, rfl, rfl⟩,
    ?_, rfl, rfl, ?_⟩
  · intro path hpath
    have h : serverField (buildMcpConfig (some path)) "neo4j" "command"
        = some (.str (orDefault (some path) "neo4j-mcp")) := rfl
    rw [h]
    simp [orDefault, hpath]
  · intro env w hskip
    have h : mainBinaryPath env w = none := by
      simp [mainBinaryPath, stepInstall, hskip]
    rw [h]
    exact ⟨rfl, rfl⟩

/-- Witness of C8: the driver started with the three skip flags. -/
theorem buildMcpConfig_shape_witness :
    mainBinaryPath
        (sampleEnv ["--skip-neo4j", "--skip-neo4j-docker", "--skip-cache-warm"] (fun _ => none))
        (sampleWorld "" "") = none ∧
      serverField
        (buildMcpConfig (mainBinaryPath
          (sampleEnv ["--skip-neo4j", "--skip-neo4j-docker", "--skip-cache-warm"]
            (fun _ => none))
          (sampleWorld "" ""))) "neo4j" "command" = some (.str "neo4j-mcp") :=
  buildMcpConfig_shape.2.2.2.2
    (sampleEnv ["--skip-neo4j", "--skip-neo4j-docker", "--skip-cache-warm"] (fun _ => none))
    (sampleWorld "" "") (by decide)

/-! ### Dry run -/

theorem DryStep.refl (w : World) : DryStep false w w :=
  ⟨rfl, [], by simp, by simp, by simp⟩

theorem DryStep.weaken {a : Bool} {w w' : World} (h : DryStep true w w') : DryStep a w w' := by
  obtain ⟨hf, es, ht, hr, hd⟩ := h
  exact ⟨hf, es, ht, hr, fun _ => hd rfl⟩

theorem DryStep.print {a : Bool} {w x : World} (kind : LogKind) (message : String)
    (h : DryStep a w x) : DryStep a w (x.emit (.print kind message)) := by
  obtain ⟨hf, es, ht, hr, hd⟩ := h
  refine ⟨hf, es ++ [.print kind message], ?_, ?_, ?_⟩
  · simp [World.emit, ht]
  · intro e he
    rcases List.mem_append.mp he with h1 | h1
    · exact hr e h1
    · rw [List.mem_singleton.mp h1]; rfl
  · intro ha
    obtain ⟨e, he, hdry⟩ := hd ha
    exact ⟨e, List.mem_append_left _ he, hdry⟩

theorem DryStep.announce {a : Bool} {w x : World} (message : String)
    (h : DryStep a w x) : DryStep true w (x.emit (.print .dry message)) := by
  obtain ⟨hf, es, ht, hr, _⟩ := h
  refine ⟨hf, es ++ [.print .dry message], ?_, ?_, ?_⟩
  · simp [World.emit, ht]
  · intro e he
    rcases List.mem_append.mp he with h1 | h1
    · exact hr e h1
    · rw [List.mem_singleton.mp h1]; rfl
  · intro _
    exact ⟨_, List.mem_append_right _ (List.mem_singleton.mpr rfl), rfl⟩

theorem DryStep.query {a : Bool} {w x : World} (command : String)
    (hc : Effect.readOnly (.exec command) = true)
    (h : DryStep a w x) : DryStep a w (x.emit (.exec command)) := by
  obtain ⟨hf, es, ht, hr, hd⟩ := h
  refine ⟨hf, es ++ [.exec command], ?_, ?_, ?_⟩
  · simp [World.emit, ht]
  · intro e he
    rcases List.mem_append.mp he with h1 | h1
    · exact hr e h1
    · rw [List.mem_singleton.mp h1]; exact hc
  · intro ha
    obtain ⟨e, he, hdry⟩ := hd ha
    exact ⟨e, List.mem_append_left _ he, hdry⟩

theorem DryStep.ite {a : Bool} {w y z : World} {c : Prop} [Decidable c]
    (hy : DryStep a w y) (hz : DryStep a w z) : DryStep a w (if c then y else z) := by
  split
  · exact hy
  · exact hz

theorem banner_dry {a : Bool} {w x : World} (env : Env) (h : DryStep a w x) :
    DryStep a w (banner env x) := by
  simp only [banner, consoleLog]
  exact ((((h.print _ _).print _ _).print _ _).print _ _)

theorem warmNpxCache_dry {a : Bool} {w x : World} (env : Env) (hdry : DRY_RUN env = true)
    (h : DryStep a w x) : DryStep true w (warmNpxCache env x) := by
  simp only [warmNpxCache, NPX_PACKAGES, List.foldl, warmPackage, hdry, if_true, logStep,
    logDry]
  exact ((((((h.print _ _).announce _).announce _).announce _).announce _).announce _)

theorem stepCacheWarm_dry {a : Bool} {w x : World} (env : Env) (hdry : DRY_RUN env = true)
    (h : DryStep a w x) : DryStep a w (stepCacheWarm env x) := by
  unfold stepCacheWarm
  split
  · cases a
    · exact (warmNpxCache_dry env hdry h).weaken
    · exact warmNpxCache_dry env hdry h
  · exact h.print _ _

theorem startNeo4jDocker_dry {a : Bool} {w x : World} (env : Env) (hdry : DRY_RUN env = true)
    (h : DryStep a w x) : DryStep a w (startNeo4jDocker env x).2 := by
  have q1 : Effect.readOnly (.exec dockerInfoCommand) = true := by decide
  have q2 : Effect.readOnly (.exec dockerInspectCommand) = true := by decide
  have q3 : Effect.readOnly (.exec dockerInspectRunningCommand) = true := by decide
  have keep : ∀ {y : World}, DryStep true w y → DryStep a w y := fun hy => hy.weaken
  unfold startNeo4jDocker isDockerAvailable doesNeo4jContainerExist isNeo4jContainerRunning
  simp only [hdry, if_true, log, logStep, logWarn, logError, logDry]
  cases env.execSync dockerInfoCommand with
  | error e =>
    simp only [Bool.not_false, if_true]
    exact ((((h.print _ _).query _ q1).print _ _).print _ _)
  | ok o1 =>
    simp only [Bool.not_true, Bool.false_eq_true, if_false]
    cases env.execSync dockerInspectCommand with
    | error e =>
      simp only [Bool.false_eq_true, if_false]
      exact keep (((((((((h.print _ _).query _ q1).print _ _).query _ q2).announce _).announce
        _).announce _).announce _).announce _)
    | ok o2 =>
      simp only [if_true]
      cases env.execSync dockerInspectRunningCommand with
      | error e =>
        simp only [Bool.false_eq_true, if_false]
        exact keep ((((((h.print _ _).query _ q1).print _ _).query _ q2).query _ q3).announce _)
      | ok o3 =>
        simp only
        split
        · exact ((((((h.print _ _).query _ q1).print _ _).query _ q2).query _ q3).print _ _)
        · exact keep
            ((((((h.print _ _).query _ q1).print _ _).query _ q2).query _ q3).announce _)

theorem stepDocker_dry {a : Bool} {w x : World} (env : Env) (hdry : DRY_RUN env = true)
    (h : DryStep a w x) : DryStep a w (stepDocker env x).2 := by
  unfold stepDocker
  split
  · have hs := startNeo4jDocker_dry env hdry h
    rcases hr : startNeo4jDocker env x with ⟨r, y⟩
    rw [hr] at hs
    cases r with
    | ok started => exact hs
    | error e =>
      simp only [logError, logWarn]
      exact ((hs.print _ _).print _ _)
  · exact h.print _ _

theorem installNeo4jMcp_dry {a : Bool} {w x : World} (env : Env) (hdry : DRY_RUN env = true)
    (h : DryStep a w x) :
    DryStep true w (installNeo4jMcp env x).2 ∧ ∃ path, (installNeo4jMcp env x).1 = .ok path := by
  unfold installNeo4jMcp
  simp only [hdry, if_true, logStep, logWarn, logDry]
  exact ⟨DryStep.announce _ (DryStep.ite ((h.print _ _).print _ _) (h.print _ _)), _, rfl⟩

theorem stepInstall_dry {a : Bool} {w x : World} (env : Env) (hdry : DRY_RUN env = true)
    (h : DryStep a w x) : DryStep a w (stepInstall env x).2 := by
  unfold stepInstall
  split
  · obtain ⟨hs, path, hp⟩ := installNeo4jMcp_dry env hdry h
    rcases hr : installNeo4jMcp env x with ⟨r, y⟩
    rw [hr] at hs hp
    simp only at hp
    subst hp
    exact hs.weaken
  · exact h.print _ _

theorem stepBuild_dry {a : Bool} {w x : World} (path : Option String) (h : DryStep a w x) :
    DryStep a w (stepBuild path x) := by
  simp only [stepBuild, logStep, log]
  exact ((h.print _ _).print _ _)

theorem stepWrite_dry {a : Bool} {w x : World} (env : Env) (mcpConfig : Val)
    (hdry : DRY_RUN env = true) (h : DryStep a w x) :
    DryStep true w (stepWrite env mcpConfig x) := by
  simp only [stepWrite, variants, List.foldl, writeMcpJson, hdry, if_true, logStep, logDry]
  exact ((((h.print _ _).announce _).print _ _).announce _)

theorem summary_dry {a : Bool} {w x : World} (env : Env) (ok : Bool) (path : Option String)
    (h : DryStep a w x) : DryStep a w (summary env ok path x) := by
  simp only [summary, variants, List.foldl, consoleLog]
  exact (((((((((((((((((((((h.print _ _).print _ _).print _ _).print _ _).print _ _).print _
    _).print _ _).print _ _).print _ _).print _ _).print _ _).print _ _).print _ _).print _
    _).print _ _).print _ _).print _ _).print _ _).print _ _).print _ _).print _ _)

/-- C9: with `--dry-run` among the arguments, whatever the skip flags, the
answers of Docker and the files present, the whole run changes no file and
adds to the trace only console output and the three read-only docker
queries (no `mkdir`, write, `chmod` or `unlink`, no `npx`, `docker start`,
`docker run` or archive extraction, no request and no download), and at
least one of the lines it prints is a `[dry-run]` line. -/
theorem main_dry_run_changes_nothing (env : Env) (w : World) (hdry : DRY_RUN env = true) :
    (main env w).files = w.files ∧
      ∃ es, (main env w).trace = w.trace ++ es ∧
        (∀ e ∈ es, Effect.readOnly e = true) ∧
        (∃ e ∈ es, Effect.isDryLog e = true) := by
  have h : DryStep true w (main env w) := by
    unfold main
    simp only
    exact summary_dry env _ _ (stepWrite_dry env _ hdry (stepBuild_dry _
      (stepInstall_dry env hdry (stepDocker_dry env hdry (stepCacheWarm_dry env hdry
        (banner_dry env (DryStep.refl w)))))))
  obtain ⟨hf, es, ht, hr, hd⟩ := h
  exact ⟨hf, es, ht, hr, hd rfl⟩

/-- Witness of C9: a dry run in the sample environment. -/
theorem main_dry_run_changes_nothing_witness :
    (main (sampleEnv ["--dry-run"] (fun _ => none)) (sampleWorld "/cfg/mcp.json" "x")).files
      = (sampleWorld "/cfg/mcp.json" "x").files :=
  (main_dry_run_changes_nothing (sampleEnv ["--dry-run"] (fun _ => none))
    (sampleWorld "/cfg/mcp.json" "x") (by decide)).1

/-! ### getNeo4jAssetName -/

theorem getNeo4jAssetName_eq_spec (env : Env) :
    getNeo4jAssetName env = specAssetName env.platform env.arch := by
  unfold getNeo4jAssetName specAssetName specAssetOs specAssetArch specAssetExt isWindows isMac
  by_cases hw : env.platform = "win32"
  · by_cases ha : env.arch = "arm64"
    · simp only [hw, ha, beq_self_eq_true, if_true]
      decide
    · simp only [hw, ha, beq_self_eq_true, if_true, beq_iff_eq, if_false]
      decide
  · by_cases hm : env.platform = "darwin"
    · by_cases ha : env.arch = "arm64"
      · simp only [hm, ha, beq_self_eq_true, if_true, beq_iff_eq, if_false]
        decide
      · simp only [hm, ha, beq_self_eq_true, if_true, beq_iff_eq, if_false]
        decide
    · by_cases ha : env.arch = "arm64"
      · simp only [hw, hm, ha, beq_self_eq_true, if_true, beq_iff_eq, if_false]
        decide
      · simp only [hw, hm, ha, beq_iff_eq, if_false]
        decide

/-- C11: the release asset filename depends on the operating-system
identifier and the CPU architecture alone.  For every environment it is
`neo4j-mcp_<OS>_<ARCH>.<EXT>`, where OS is `Windows` for `win32`, `Darwin`
for `darwin` and `Linux` for every other platform, ARCH is `arm64` for
`arm64` and `x86_64` for every other architecture, and EXT is `zip` for
Windows and `tar.gz` otherwise; two environments with the same platform and
architecture get the same filename, whatever else differs. -/
theorem getNeo4jAssetName_pure :
    (∀ env : Env, getNeo4jAssetName env = specAssetName env.platform env.arch) ∧
      (∀ env1 env2 : Env, env1.platform = env2.platform → env1.arch = env2.arch →
        getNeo4jAssetName env1 = getNeo4jAssetName env2) := by
  refine ⟨getNeo4jAssetName_eq_spec, ?_⟩
  intro env1 env2 hp ha
  rw [getNeo4jAssetName_eq_spec env1, getNeo4jAssetName_eq_spec env2, hp, ha]

/-- Witness of C11: the sample environment with and without `--dry-run` and
with different JSON codecs resolves the same filename, the Linux archive for
`x86_64`. -/
theorem getNeo4jAssetName_pure_witness :
    getNeo4jAssetName (sampleEnv [] (fun _ => none))
        = getNeo4jAssetName (sampleEnv ["--dry-run"] (fun _ => some .null)) ∧
      getNeo4jAssetName (sampleEnv [] (fun _ => none)) = "neo4j-mcp_Linux_x86_64.tar.gz" :=
  ⟨getNeo4jAssetName_pure.2 (sampleEnv [] (fun _ => none))
      (sampleEnv ["--dry-run"] (fun _ => some .null)) rfl rfl,
    by decide⟩

end McpSetup
